import Mathlib

/-!
# arbot: cross-exchange arbitrage evaluation

A shallow embedding of the Go packages `exchange` (`exchange.go`, `binance.go`,
`1inch.go`) and `strategy` (`strategy.go`).

* `decimal.Decimal` (shopspring) is an arbitrary-precision decimal whose `Mul`, `Add`,
  `Sub` and comparisons are exact, so it is embedded as `ℚ`.
* `float64` is embedded as the rational value of a finite IEEE-754 binary64 number;
  float64 arithmetic is the exact operation followed by `f64round`
  (round to nearest, ties to even).
* Channels of `struct{}` are embedded by their occupancy, price streams by the list of
  prices they deliver, goroutines by an interleaving step function.
-/

namespace arbot

/-! ## Go runtime values -/

/-- Go `error` values used by the two packages. `wrap s c` is
`fmt.Errorf("%w %v", s, c)`: it wraps the sentinel `s` and prints the cause `c`. -/
inductive GoError where
  | ErrInvalidSymbol
  | ErrPriceInvalidData
  | errInitPriceStream
  | contextCanceled
  | external (msg : String)
  | wrap (sentinel cause : GoError)
  deriving DecidableEq, Repr

/-- Go `errors.Is err target`: `err` is `target` or wraps it through `%w`. -/
def GoError.Is : GoError → GoError → Bool
  | .wrap s c, target => decide (GoError.wrap s c = target) || s.Is target
  | .ErrInvalidSymbol, target => decide (GoError.ErrInvalidSymbol = target)
  | .ErrPriceInvalidData, target => decide (GoError.ErrPriceInvalidData = target)
  | .errInitPriceStream, target => decide (GoError.errInitPriceStream = target)
  | .contextCanceled, target => decide (GoError.contextCanceled = target)
  | .external m, target => decide (GoError.external m = target)

/-- Result of a Go call that may end in a run-time panic instead of returning. -/
inductive Outcome (α : Type) where
  | returned (a : α)
  | panicked (msg : String)
  deriving DecidableEq, Repr

/-- Go `time.Duration`, in nanoseconds. -/
abbrev Duration := Int

/-- Go `time.Time`, as an instant number. -/
abbrev Time := Nat

/-- A buffered `chan struct{}`: only the number of queued signals matters. -/
structure Chan where
  buf : Nat
  cap : Nat
  deriving DecidableEq, Repr

/-- Go `make(chan struct{}, cap)`. -/
def Chan.make (cap : Nat) : Chan := { buf := 0, cap := cap }

/-- Go `ch <- struct{}{}`: `none` when the buffer is full and the sender blocks. -/
def Chan.send (ch : Chan) : Option Chan :=
  if ch.buf < ch.cap then some { ch with buf := ch.buf + 1 } else none

/-- Go `<-ch`: `none` when the buffer is empty and the receiver blocks. -/
def Chan.recv (ch : Chan) : Option Chan :=
  if 0 < ch.buf then some { ch with buf := ch.buf - 1 } else none

/-! ## float64 and shopspring/decimal -/

/-- The shopspring `decimal.Decimal` type: exact decimal numbers. -/
abbrev Decimal := ℚ

/-- A finite Go `float64`, as the rational number it denotes. -/
abbrev float64 := ℚ

/-- Auxiliary of `natLog`: integer logarithm by repeated division, `fuel` steps. -/
def natLogAux (b : Nat) : Nat → Nat → Nat
  | 0, _ => 0
  | fuel + 1, n => if n < b then 0 else natLogAux b fuel (n / b) + 1

/-- Floor of the base-`b` logarithm of `n` (0 for `n < b`). -/
def natLog (b n : Nat) : Nat := natLogAux b n n

/-- Floor of the base-`b` logarithm of `|q|`, for `q ≠ 0`. -/
def ilog (b : Nat) (q : ℚ) : ℤ :=
  let k : ℤ := (natLog b q.num.natAbs : ℤ) - (natLog b q.den : ℤ)
  if |q| < (b : ℚ) ^ k then k - 1 else k

/-- Round to the nearest integer, ties to the even one. -/
def roundHalfEven (q : ℚ) : ℤ :=
  let f := ⌊q⌋
  let r := q - f
  if r < 1 / 2 then f else if 1 / 2 < r then f + 1 else if f % 2 = 0 then f else f + 1

/-- Binary exponent of the unit in the last place that binary64 uses for `q`:
53 significant bits, subnormal below `2 ^ (-1022)`. -/
def f64exp (q : ℚ) : ℤ := max (ilog 2 q - 52) (-1074)

/-- IEEE-754 binary64 rounding of a rational (round to nearest, ties to even).
Exponent overflow is not represented: the strategy only rounds `1 ± s` for a finite
`s`, which never overflows. -/
def f64round (q : ℚ) : float64 :=
  if q = 0 then 0
  else (roundHalfEven (q / (2 : ℚ) ^ f64exp q) : ℚ) * (2 : ℚ) ^ f64exp q

/-- Go float64 subtraction `a - b`. -/
def f64sub (a b : float64) : float64 := f64round (a - b)

/-- Go float64 addition `a + b`. -/
def f64add (a b : float64) : float64 := f64round (a + b)

/-- The float64 denoted by a decimal literal (YAML and `strconv.ParseFloat` round
correctly). -/
def f64lit (q : ℚ) : float64 := f64round q

/-- One step of the shortest-digits search of `decimal.NewFromFloat`: the decimal with
`n` significant digits next to `v` that converts back to `v`, if there is one
(the nearest when both neighbours do). -/
def shortestAt (v : float64) (n : Nat) : Option Decimal :=
  let scale : ℚ := (10 : ℚ) ^ ((n : ℤ) - 1 - ilog 10 v)
  let a : ℚ := |v| * scale
  let sgn : ℚ := if v < 0 then -1 else 1
  let down : ℚ := sgn * ((⌊a⌋ : ℤ) : ℚ) / scale
  let up : ℚ := sgn * ((⌊a⌋ + 1 : ℤ) : ℚ) / scale
  let near : ℚ := sgn * ((roundHalfEven a : ℤ) : ℚ) / scale
  if f64round down = v then
    if f64round up = v then some near else some down
  else if f64round up = v then some up else none

/-- Search of `decimal.NewFromFloat` over digit counts `n, n + 1, ...`; when no short
decimal converts back, the exact value of the float is kept. -/
def shortestFrom (v : float64) : Nat → Nat → Decimal
  | 0, _ => v
  | fuel + 1, n =>
    match shortestAt v n with
    | some d => d
    | none => shortestFrom v fuel (n + 1)

/-- The library function `decimal.NewFromFloat` (shopspring/decimal), following its
documented contract: the decimal with the fewest significant digits that converts
back to the same float64 (at most 17 digits are ever needed); zero maps to zero. -/
def NewFromFloat (v : float64) : Decimal :=
  if v = 0 then 0 else shortestFrom v 17 1

/-! ## Package `exchange` -/

namespace exchange

/-- Go `exchange.Price`: spot orderbook price. -/
structure Price where
  Ask : Decimal
  Bid : Decimal
  deriving DecidableEq

/-- Go `exchange.Config`. -/
structure Config where
  Name : String
  Testing : Bool
  Fees : float64
  APIAccessKey : String
  APISecretKey : String

/-- The Go interface `exchange.Exchange`, as the record of its methods
(`Ping` only probes the remote service and is left out). A price stream is the list of
prices its channel delivers. -/
structure Exchange where
  Name : String
  Fees : Decimal
  PriceStream : String → Duration → Except GoError (List Price)

/-! ### The ticker pattern and Go `regexp` -/

/-- The fragment of Go regular expressions that `regexpTicker` is written in. Repetition
is greedy and matching is leftmost-first, as in Go `regexp`. -/
inductive Regex where
  | beginText
  | endText
  | oneOrMore (cls : List (Char × Char))
  | zeroOrOne (cls : List (Char × Char))
  | capture (name : String) (r : Regex)
  | seq (r₁ r₂ : Regex)

/-- Membership of a character in a class given by its ranges. -/
def inClass (cls : List (Char × Char)) (c : Char) : Bool :=
  cls.any fun r => decide (r.1 ≤ c) && decide (c ≤ r.2)

/-- Capture groups closed so far: name, start and end offset. -/
abbrev Captures := List (String × Nat × Nat)

/-- Greedy `[...]+` against the remaining input: longer runs are tried first. -/
def oneOrMoreRun {α : Type} (cls : List (Char × Char)) :
    List Char → Nat → (List Char → Nat → Option α) → Option α
  | [], _, _ => none
  | c :: cs, pos, k =>
    if inClass cls c then
      match oneOrMoreRun cls cs (pos + 1) k with
      | some r => some r
      | none => k cs (pos + 1)
    else none

/-- Backtracking matcher: `run r s pos caps k` matches `r` at offset `pos`, where `s` is
the input from `pos` on, and hands the rest to the continuation `k`. Alternatives are
tried in the priority order of Go `regexp`. -/
def Regex.run : Regex → List Char → Nat → Captures →
    (List Char → Nat → Captures → Option (Nat × Captures)) → Option (Nat × Captures)
  | .beginText, s, pos, caps, k => if pos = 0 then k s pos caps else none
  | .endText, s, pos, caps, k => if s.isEmpty then k s pos caps else none
  | .oneOrMore cls, s, pos, caps, k => oneOrMoreRun cls s pos fun s' pos' => k s' pos' caps
  | .zeroOrOne cls, s, pos, caps, k =>
    match s with
    | c :: cs =>
      if inClass cls c then
        match k cs (pos + 1) caps with
        | some r => some r
        | none => k s pos caps
      else k s pos caps
    | [] => k s pos caps
  | .capture name r, s, pos, caps, k =>
    r.run s pos caps fun s' pos' caps' => k s' pos' (caps' ++ [(name, pos, pos')])
  | .seq r₁ r₂, s, pos, caps, k =>
    r₁.run s pos caps fun s' pos' caps' => r₂.run s' pos' caps' k

/-- Leftmost match at or after offset `pos`: start offset, end offset and captures. -/
def Regex.findFrom (re : Regex) : List Char → Nat → Option (Nat × Nat × Captures)
  | s, pos =>
    match re.run s pos [] (fun _ e caps => some (e, caps)) with
    | some (e, caps) => some (pos, e, caps)
    | none =>
      match s with
      | [] => none
      | _ :: cs => re.findFrom cs (pos + 1)

/-- Names of the capture groups in pattern order. -/
def Regex.groupNames : Regex → List String
  | .capture name r => name :: r.groupNames
  | .seq r₁ r₂ => r₁.groupNames ++ r₂.groupNames
  | _ => []

/-- Go `(*Regexp).SubexpNames`: index 0 is the whole match and has the empty name. -/
def Regex.SubexpNames (re : Regex) : List String := "" :: re.groupNames

/-- The text `src[start:stop]`. -/
def slice (src : List Char) (start stop : Nat) : String :=
  String.mk ((src.drop start).take (stop - start))

/-- Text captured by the group `name`, empty when the group did not take part. -/
def groupText (src : List Char) (caps : Captures) (name : String) : String :=
  match caps.lookup name with
  | some (start, stop) => slice src start stop
  | none => ""

/-- Go `(*Regexp).FindStringSubmatch`: the whole match followed by the text of every
group; the empty (nil) slice when nothing matches. -/
def Regex.FindStringSubmatch (re : Regex) (s : String) : List String :=
  match re.findFrom s.toList 0 with
  | some (start, stop, caps) =>
    slice s.toList start stop :: re.groupNames.map (groupText s.toList caps)
  | none => []

/-- Successive non-overlapping matches from offset `pos` on, at most `fuel` of them. -/
def Regex.findAllFrom (re : Regex) (s : List Char) : Nat → Nat → List (Nat × Nat × Captures)
  | 0, _ => []
  | fuel + 1, pos =>
    match re.findFrom (s.drop pos) pos with
    | some (start, stop, caps) =>
      (start, stop, caps) :: re.findAllFrom s fuel (if stop = start then stop + 1 else stop)
    | none => []

/-- Go `(*Regexp).FindAllSubmatchIndex(b, -1)`: every successive match; a string of
length `n` has at most `n + 1` of them. -/
def Regex.FindAllSubmatchIndex (re : Regex) (s : String) : List (Nat × Nat × Captures) :=
  re.findAllFrom s.toList (s.length + 1) 0

/-- A piece of an expansion template: literal text or a `$name` reference. -/
inductive TemplatePart where
  | lit (text : String)
  | ref (name : String)

/-- Go `(*Regexp).ExpandString dst template src match`: appends the template to `dst`
with every `$name` replaced by the text of that group in the match. -/
def Regex.ExpandString (dst : String) (template : List TemplatePart) (src : String)
    (submatch : Nat × Nat × Captures) : String :=
  template.foldl
    (fun acc part =>
      match part with
      | .lit text => acc ++ text
      | .ref name => acc ++ groupText src.toList submatch.2.2 name)
    dst

/-- The letters `[A-Za-z]`. -/
def tickerLetters : List (Char × Char) := [('A', 'Z'), ('a', 'z')]

/-- The separators `[:\-_]`. -/
def tickerSeparators : List (Char × Char) := [(':', ':'), ('-', '-'), ('_', '_')]

/-- Go constant `regexpTicker`, the pattern
`^(?P<base>[A-Za-z]+)[:\-_]{0,1}(?P<quote>[A-Za-z]+)$`. -/
def regexpTicker : Regex :=
  .seq .beginText
    (.seq (.capture "base" (.oneOrMore tickerLetters))
      (.seq (.zeroOrOne tickerSeparators)
        (.seq (.capture "quote" (.oneOrMore tickerLetters)) .endText)))

/-! ### binance -/

/-- Go constant `binanceTickerFmt`, the template `$base$quote`. -/
def binanceTickerFmt : List TemplatePart := [.ref "base", .ref "quote"]

/-- Go `binanceExchange.Name`. -/
def binanceExchange.Name : String := "binance"

/-- Go `binanceExchange.Fees`. -/
def binanceExchange.Fees (cfg : Config) : Decimal := NewFromFloat cfg.Fees

/-- Go `binanceExchange.formatSymbol`: the returned pair is (symbol, error). -/
def binanceExchange.formatSymbol (symbol : String) : String × Option GoError :=
  let submatches := regexpTicker.FindAllSubmatchIndex symbol
  let result :=
    submatches.foldl
      (fun result submatch => Regex.ExpandString result binanceTickerFmt symbol submatch) ""
  (result, none)

/-- Go `binanceExchange.PriceStream`. The websocket subscription
`webSocketPriceStream` belongs to the binance client library and is a parameter. -/
def binanceExchange.PriceStream (webSocketPriceStream : String → Except GoError (List Price))
    (symbol : String) (_interval : Duration) : Except GoError (List Price) :=
  match binanceExchange.formatSymbol symbol with
  | (_, some err) => .error err
  | (symbol, none) =>
    match webSocketPriceStream symbol with
    | .error err => .error err
    | .ok stream => .ok stream

/-- Go `NewBinanceExchange`, as a value of the `Exchange` interface. -/
def NewBinanceExchange (config : Config)
    (webSocketPriceStream : String → Except GoError (List Price)) : Exchange :=
  { Name := binanceExchange.Name
    Fees := binanceExchange.Fees config
    PriceStream := binanceExchange.PriceStream webSocketPriceStream }

/-! ### 1inch -/

/-- Go map `tokenToCoinGeckoId`. -/
def tokenToCoinGeckoId : List (String × String) :=
  [("BTC", "bitcoin"), ("ETH", "ethereum"), ("USDC", "usd"), ("USDT", "usd"), ("DAI", "usd")]

/-- Go `convertToCoinGeckoTokenId`. -/
def convertToCoinGeckoTokenId (token : String) : String :=
  match tokenToCoinGeckoId.lookup token with
  | some tokenId => tokenId
  | none => token

/-- The loop of `parseBaseAndQuote` over `pattern.SubexpNames()`: `result[name] = match[i]`
for every named group; indexing past the end of `match` panics. -/
def oneInchExchange.collectGroups (submatch : List String) :
    List (Nat × String) → List (String × String) → Outcome (List (String × String))
  | [], result => .returned result
  | (i, name) :: rest, result =>
    if i ≠ 0 ∧ name ≠ "" then
      match submatch.get? i with
      | some text => collectGroups submatch rest ((name, text) :: result)
      | none => .panicked "index out of range"
    else collectGroups submatch rest result

/-- Go `oneInchExchange.parseBaseAndQuote`. -/
def oneInchExchange.parseBaseAndQuote (symbol : String) : Outcome (String × String) :=
  let submatch := regexpTicker.FindStringSubmatch symbol
  match oneInchExchange.collectGroups submatch regexpTicker.SubexpNames.enum [] with
  | .panicked msg => .panicked msg
  | .returned result =>
    let base := convertToCoinGeckoTokenId ((result.lookup "base").getD "")
    let quote := convertToCoinGeckoTokenId ((result.lookup "quote").getD "")
    .returned (base, quote)

/-- Go `oneInchExchange.Name`. -/
def oneInchExchange.Name : String := "1inch"

/-- Go `oneInchExchange.Fees`. -/
def oneInchExchange.Fees (cfg : Config) : Decimal := NewFromFloat cfg.Fees

/-- Go `oneInchExchange.fetchPrice`. The HTTP round trip to the price oracle is the
parameter `query`, from (ids, vs_currencies) to the quoted value. -/
def oneInchExchange.fetchPrice (query : String → String → Except GoError float64)
    (symbol : String) : Outcome (Except GoError Price) :=
  match oneInchExchange.parseBaseAndQuote symbol with
  | .panicked msg => .panicked msg
  | .returned (base, quote) =>
    match query base quote with
    | .error err => .returned (.error err)
    | .ok v => .returned (.ok { Ask := NewFromFloat v, Bid := NewFromFloat v })

/-- Go `oneInchExchange.PriceStream`: it creates the channel and the ticker
(`time.NewTicker` panics on a non-positive interval), starts the polling goroutine and
returns the channel with a nil error, without looking at the symbol. `polled` is what the
polling goroutine pushes on the channel. -/
def oneInchExchange.PriceStream (polled : List Price) (_symbol : String)
    (interval : Duration) : Outcome (Except GoError (List Price)) :=
  if 0 < interval then .returned (.ok polled)
  else .panicked "non-positive interval for NewTicker"

end exchange

/-! ## Package `strategy` -/

namespace strategy

open exchange

/-- Go `strategy.Config`. -/
structure Config where
  Name : String
  Debug : Bool
  Interval : Duration
  Exchanges : List Exchange
  TradingPair : String
  Slipage : float64

/-- Go `strategy.Strategy`. -/
structure Strategy extends Config where
  exchangeA : Exchange
  exchangeB : Exchange

/-- Go `NewStrategy`: panics with fewer than two exchanges. -/
def NewStrategy (config : Config) : Outcome Strategy :=
  match config.Exchanges with
  | a :: b :: _ => .returned { toConfig := config, exchangeA := a, exchangeB := b }
  | _ => .panicked "arbot: cross-exchange single asset requires 2 exchanges!"

/-! ### priceView -/

/-- Go `priceView`. The mutex `mu` has no field here: holding it is a position of the
consumer goroutine (`ConsumerPc`). -/
structure priceView where
  exchange : String
  price : Price
  initialized : Bool
  signalReady : Chan
  deriving DecidableEq

/-- Go `newPriceView`. -/
def newPriceView (exchange : String) : priceView :=
  { exchange := exchange
    price := { Ask := 0, Bid := 0 }
    initialized := false
    signalReady := Chan.make 1 }

/-- Go `priceView.Price`. -/
def priceView.Price (mv : priceView) : Price :=
  let priceCopy := mv.price
  priceCopy

/-- Go `priceView.Update`, run from `Lock` to `Unlock` without interruption:
`none` when the send on `signalReady` blocks. -/
def priceView.Update (mv : priceView) (price : exchange.Price) : Option priceView :=
  if !mv.initialized then
    match mv.signalReady.send with
    | some ch => some { mv with signalReady := ch, initialized := true, price := price }
    | none => none
  else some { mv with price := price }

/-- A run of `Update` calls, one per price, on one view. The result is the final view
together with, for every call in order, whether the call put a signal on `signalReady`
(the occupancy of the channel changed); `none` when some call blocks. -/
def priceView.UpdateAll : priceView → List exchange.Price → Option (priceView × List Bool)
  | mv, [] => some (mv, [])
  | mv, price :: rest =>
    match mv.Update price with
    | none => none
    | some mv' =>
      match priceView.UpdateAll mv' rest with
      | none => none
      | some (last, sent) => some (last, decide (mv'.signalReady.buf ≠ mv.signalReady.buf) :: sent)

/-! ### Profit -/

/-- The local `sellFees` of `calcAdjustedProfit`. -/
def Strategy.sellFees (strat : Strategy) (sell : Decimal) : Decimal :=
  sell * strat.exchangeA.Fees

/-- The local `buyFees` of `calcAdjustedProfit`. -/
def Strategy.buyFees (strat : Strategy) (buy : Decimal) : Decimal :=
  buy * strat.exchangeB.Fees

/-- The local `sellSlip` of `calcAdjustedProfit`: `decimal.NewFromFloat(1.0 - strat.Slipage)`. -/
def Strategy.sellSlip (strat : Strategy) : Decimal :=
  NewFromFloat (f64sub 1 strat.Slipage)

/-- The local `buySlip` of `calcAdjustedProfit`: `decimal.NewFromFloat(1.0 + strat.Slipage)`. -/
def Strategy.buySlip (strat : Strategy) : Decimal :=
  NewFromFloat (f64add 1 strat.Slipage)

/-- Go `Strategy.calcAdjustedProfit`. -/
def Strategy.calcAdjustedProfit (strat : Strategy) (sell buy : Decimal) : Decimal :=
  let sellSlip := strat.sellSlip
  let sellFees := strat.sellFees sell
  let buySlip := strat.buySlip
  let buyFees := strat.buyFees buy
  let sellAdj := sell * sellSlip
  let buyAdj := buy * buySlip
  (sellAdj - buyAdj) - (sellFees + buyFees)

/-- Go `ArbitragePlan`. -/
structure ArbitragePlan where
  tradingPair : String
  timestamp : Time
  buyExchange : String
  sellExchange : String
  buyPrice : Decimal
  sellPrice : Decimal
  profit : Decimal
  slipage : float64
  totalFee : float64
  deriving DecidableEq

/-- One `log.Println(plan.Format(), tag)` call: the plan that is formatted and the tag
printed after it. -/
structure LogLine where
  plan : ArbitragePlan
  tag : String
  deriving DecidableEq

/-- The body of the `case <-ticker.C` branch of `Strategy.Run` after the two snapshots
are read: what it logs, in order. `now₁` and `now₂` are the two `time.Now()` readings. -/
def Strategy.tick (strat : Strategy) (priceA priceB : Price) (now₁ now₂ : Time) :
    List LogLine :=
  let profitAB := strat.calcAdjustedProfit priceB.Ask priceA.Bid
  let planAB : ArbitragePlan :=
    { tradingPair := strat.TradingPair
      timestamp := now₁
      buyExchange := strat.exchangeA.Name
      buyPrice := priceA.Bid
      sellExchange := strat.exchangeB.Name
      sellPrice := priceB.Ask
      profit := profitAB
      slipage := strat.Slipage
      totalFee := 0 }
  let lineAB : LogLine :=
    if 0 < profitAB then { plan := planAB, tag := "profit: yes |" }
    else { plan := planAB, tag := "profit: no  |" }
  let profitBA := strat.calcAdjustedProfit priceA.Ask priceB.Bid
  let planBA : ArbitragePlan :=
    { tradingPair := strat.TradingPair
      timestamp := now₂
      buyExchange := strat.exchangeB.Name
      buyPrice := priceB.Bid
      sellExchange := strat.exchangeA.Name
      sellPrice := priceA.Ask
      profit := profitBA
      slipage := strat.Slipage
      totalFee := 0 }
  let lineBA : LogLine :=
    if 0 < profitBA then { plan := planBA, tag := "profit: yes |" }
    else { plan := planBA, tag := "profit: no  |" }
  [lineAB, lineBA]

/-! ### The goroutines of `Run` -/

/-- Where a `consumePriceStream` goroutine stands. Except at `idle` it is inside
`Update`, holds `mu`, and carries the price it was called with. -/
inductive ConsumerPc where
  | idle
  | atCheck (price : Price)
  | atMark (price : Price)
  | atStore (price : Price)
  deriving DecidableEq

/-- One price feed: the view, the prices its stream has yet to deliver, and the consumer
goroutine draining the stream into the view. -/
structure Feed where
  view : priceView
  stream : List Price
  pc : ConsumerPc
  deriving DecidableEq

/-- The atomic steps of a consumer goroutine.
`take`: receive the next price from the stream, call `Update`, acquire `mu`.
`signal`: the test `!mv.initialized` and, when it holds, the send on `signalReady`.
`mark`: the assignment `mv.initialized = true`.
`store`: the assignment `mv.price = price` and the deferred `Unlock`. -/
inductive ConsumerStep where
  | take
  | signal
  | mark
  | store
  deriving DecidableEq

/-- Effect of a consumer step, `none` when the goroutine cannot take it. -/
def Feed.step (f : Feed) : ConsumerStep → Option Feed
  | .take =>
    match f.pc, f.stream with
    | .idle, price :: rest => some { f with stream := rest, pc := .atCheck price }
    | _, _ => none
  | .signal =>
    match f.pc with
    | .atCheck price =>
      if !f.view.initialized then
        match f.view.signalReady.send with
        | some ch => some { f with view := { f.view with signalReady := ch }, pc := .atMark price }
        | none => none
      else some { f with pc := .atStore price }
    | _ => none
  | .mark =>
    match f.pc with
    | .atMark price =>
      some { f with view := { f.view with initialized := true }, pc := .atStore price }
    | _ => none
  | .store =>
    match f.pc with
    | .atStore price => some { f with view := { f.view with price := price }, pc := .idle }
    | _ => none

/-- Go `<-view.signalReady` in `initDualPriceViews`. -/
def Feed.recvReady (f : Feed) : Option Feed :=
  match f.view.signalReady.recv with
  | some ch => some { f with view := { f.view with signalReady := ch } }
  | none => none

/-- Go `view.Price()` from the evaluation loop: `RLock` is granted only while the
consumer does not hold `mu`. -/
def Feed.readPrice (f : Feed) : Option Price :=
  match f.pc with
  | .idle => some f.view.Price
  | _ => none

/-- Where the goroutine running `Run` stands: the two receives that end
`initDualPriceViews`, the `select` of the loop, between the two snapshot reads of a
tick, returned, or stopped by the panic of `time.NewTicker` on a non-positive interval. -/
inductive MainPc where
  | waitA
  | waitB
  | select
  | readB (priceA : Price)
  | returned (err : GoError)
  | panicked (msg : String)
  deriving DecidableEq

/-- The two feeds. -/
inductive Side where
  | A
  | B
  deriving DecidableEq

/-- Scheduler choices. `recvReady` is the receive on `signalReady` the main goroutine is
waiting on; the second one returns from `initDualPriceViews` and creates the ticker.
`tickReadA` is the ticker case up to `viewA.Price()`, `tickReadB` the rest of that tick,
`cancel` the `ctx.Done()` case. -/
inductive Action where
  | consumer (side : Side) (st : ConsumerStep)
  | recvReady
  | tickReadA
  | tickReadB (now₁ now₂ : Time)
  | cancel
  deriving DecidableEq

/-- State of a running `Run`: both feeds, the main goroutine, and the log so far. -/
structure RunState where
  feedA : Feed
  feedB : Feed
  main : MainPc
  emitted : List LogLine
  deriving DecidableEq

/-- One scheduler step of a running `Run`, `none` when the action is not enabled. -/
def RunState.step (strat : Strategy) (s : RunState) : Action → Option RunState
  | .consumer .A st =>
    match s.feedA.step st with
    | some f => some { s with feedA := f }
    | none => none
  | .consumer .B st =>
    match s.feedB.step st with
    | some f => some { s with feedB := f }
    | none => none
  | .recvReady =>
    match s.main with
    | .waitA =>
      match s.feedA.recvReady with
      | some f => some { s with feedA := f, main := .waitB }
      | none => none
    | .waitB =>
      match s.feedB.recvReady with
      | some f =>
        some { s with
          feedB := f
          main :=
            if 0 < strat.Interval then .select
            else .panicked "non-positive interval for NewTicker" }
      | none => none
    | _ => none
  | .tickReadA =>
    match s.main with
    | .select =>
      match s.feedA.readPrice with
      | some priceA => some { s with main := .readB priceA }
      | none => none
    | _ => none
  | .tickReadB now₁ now₂ =>
    match s.main with
    | .readB priceA =>
      match s.feedB.readPrice with
      | some priceB =>
        some { s with main := .select, emitted := s.emitted ++ strat.tick priceA priceB now₁ now₂ }
      | none => none
    | _ => none
  | .cancel =>
    match s.main with
    | .select => some { s with main := .returned .contextCanceled }
    | _ => none

/-- Run a schedule, `none` when one of its actions is not enabled. -/
def RunState.exec (strat : Strategy) : RunState → List Action → Option RunState
  | s, [] => some s
  | s, a :: rest =>
    match s.step strat a with
    | some s' => RunState.exec strat s' rest
    | none => none

/-- State right after the two `go strat.consumePriceStream(...)` statements. -/
def RunState.start (viewA viewB : priceView) (streamA streamB : List Price) : RunState :=
  { feedA := { view := viewA, stream := streamA, pc := .idle }
    feedB := { view := viewB, stream := streamB, pc := .idle }
    main := .waitA
    emitted := [] }

/-- Go `Strategy.initDualPriceViews` up to the two `go` statements. The first component
lists the `PriceStream` calls made, by exchange; the second is the error returned, or
the state in which the two consumers have been started and the function is about to
wait on `viewA.signalReady`. The two waits are steps of `RunState.step`. -/
def Strategy.initDualPriceViews (strat : Strategy) (symbol : String) :
    List String × Except GoError RunState :=
  let interval := strat.Interval
  let viewA := newPriceView strat.exchangeA.Name
  match strat.exchangeA.PriceStream symbol interval with
  | .error err => ([strat.exchangeA.Name], .error (.wrap .errInitPriceStream err))
  | .ok streamA =>
    let viewB := newPriceView strat.exchangeB.Name
    match strat.exchangeB.PriceStream symbol interval with
    | .error err =>
      ([strat.exchangeA.Name, strat.exchangeB.Name], .error (.wrap .errInitPriceStream err))
    | .ok streamB =>
      ([strat.exchangeA.Name, strat.exchangeB.Name],
        .ok (RunState.start viewA viewB streamA streamB))

/-- Go `Strategy.Run` under a schedule of the goroutines: `.error err` when `Run` returns
`err` from the startup check, before anything is scheduled; otherwise the state the
schedule leads to (`none` when the schedule is not executable). -/
def Strategy.Run (strat : Strategy) (sched : List Action) : Except GoError (Option RunState) :=
  match (strat.initDualPriceViews strat.TradingPair).2 with
  | .error err => .error err
  | .ok s₀ => .ok (RunState.exec strat s₀ sched)

/-! ### Invariant of a running `Run` -/

/-- The first `Update` of the feed has passed its send on `signalReady`. -/
def Feed.begun (f : Feed) : Prop :=
  f.view.initialized = true ∨ ∃ price, f.pc = .atMark price

/-- The price the consumer is inside `Update` with, if any. -/
def ConsumerPc.held : ConsumerPc → Option Price
  | .idle => none
  | .atCheck price => some price
  | .atMark price => some price
  | .atStore price => some price

/-- Invariant of one feed whose stream delivers `delivered`; `past` says that the main
goroutine has already received this feed's readiness signal. -/
structure FeedInv (delivered : List Price) (past : Prop) (f : Feed) : Prop where
  cap_one : f.view.signalReady.cap = 1
  stream_sub : ∀ price ∈ f.stream, price ∈ delivered
  held_mem : ∀ price, f.pc.held = some price → price ∈ delivered
  price_mem : f.view.initialized = true → (∃ price, f.pc = .atStore price) ∨ f.view.price ∈ delivered
  mark_uninit : ∀ price, f.pc = .atMark price → f.view.initialized = false
  buf_one : f.begun → ¬past → f.view.signalReady.buf = 1
  buf_zero : ¬(f.begun ∧ ¬past) → f.view.signalReady.buf = 0
  past_begun : past → f.begun

/-- The main goroutine is past its receive on `viewA.signalReady`. -/
def MainPc.pastA (m : MainPc) : Prop := m ≠ .waitA

/-- The main goroutine is past its receive on `viewB.signalReady`. -/
def MainPc.pastB (m : MainPc) : Prop := m ≠ .waitA ∧ m ≠ .waitB

/-- Invariant of a running `Run` whose streams deliver `streamA` and `streamB`. -/
structure RunInv (streamA streamB : List Price) (s : RunState) : Prop where
  feedA : FeedInv streamA s.main.pastA s.feedA
  feedB : FeedInv streamB s.main.pastB s.feedB
  readB_mem : ∀ priceA, s.main = .readB priceA →
    priceA ∈ streamA ∧ s.feedA.view.initialized = true
  emitted_init : s.emitted ≠ [] →
    s.feedA.view.initialized = true ∧ s.feedB.view.initialized = true

/-! ### Concrete inputs -/

/-- An exchange with a fixed fee whose price stream opens and delivers `prices`. -/
def quotedExchange (name : String) (fees : Decimal) (prices : List Price) : Exchange :=
  { Name := name, Fees := fees, PriceStream := fun _ _ => .ok prices }

/-- An exchange whose `PriceStream` fails with `err`. -/
def failingExchange (name : String) (fees : Decimal) (err : GoError) : Exchange :=
  { Name := name, Fees := fees, PriceStream := fun _ _ => .error err }

/-- A strategy over two exchanges with the given slippage. -/
def pairStrategy (slipage : float64) (a b : Exchange) : Strategy :=
  { Name := "cross-exchange"
    Debug := false
    Interval := 1000000000
    Exchanges := [a, b]
    TradingPair := "BTC-USDT"
    Slipage := slipage
    exchangeA := a
    exchangeB := b }

/-- Snapshot of exchange A in the worked case: ask 110, bid 100. -/
def casePriceA : Price := { Ask := 110, Bid := 100 }

/-- Snapshot of exchange B in the worked case: ask 105, bid 95. -/
def casePriceB : Price := { Ask := 105, Bid := 95 }

/-- Exchange A of the worked case: fee 0.001. -/
def caseExchangeA : Exchange := quotedExchange "A" (1 / 1000) [casePriceA]

/-- Exchange B of the worked case: fee 0.002. -/
def caseExchangeB : Exchange := quotedExchange "B" (2 / 1000) [casePriceB]

/-- The worked case: slippage 0.0005. -/
def caseStrategy : Strategy := pairStrategy (f64lit (5 / 10000)) caseExchangeA caseExchangeB

/-- A fee-free exchange, to isolate the slippage multipliers. -/
def freeExchange (name : String) : Exchange := quotedExchange name 0 []

/-- Slippage 0.00272 over fee-free exchanges. -/
def slipCaseSell : Strategy :=
  pairStrategy (f64lit (272 / 100000)) (freeExchange "A") (freeExchange "B")

/-- Slippage 0.0131 over fee-free exchanges. -/
def slipCaseBuy : Strategy :=
  pairStrategy (f64lit (131 / 10000)) (freeExchange "A") (freeExchange "B")

/-- A schedule of the worked case: both first `Update` calls run to completion, the main
goroutine receives both signals, then one tick fires at instants 1 and 2. -/
def caseSchedule : List Action :=
  [.consumer .A .take, .consumer .A .signal, .recvReady, .consumer .A .mark,
    .consumer .B .take, .consumer .B .signal, .consumer .B .mark, .recvReady,
    .consumer .A .store, .consumer .B .store, .tickReadA, .tickReadB 1 2]

/-- The state `caseSchedule` leads to. -/
def caseFinal : RunState :=
  { feedA :=
      { view := { exchange := "A", price := casePriceA, initialized := true,
                  signalReady := { buf := 0, cap := 1 } }
        stream := []
        pc := .idle }
    feedB :=
      { view := { exchange := "B", price := casePriceB, initialized := true,
                  signalReady := { buf := 0, cap := 1 } }
        stream := []
        pc := .idle }
    main := .select
    emitted := caseStrategy.tick casePriceA casePriceB 1 2 }

/-- A schedule of the worked case in which the main goroutine receives both signals
before either consumer has executed `mv.initialized = true`. -/
def earlySchedule : List Action :=
  [.consumer .A .take, .consumer .A .signal, .consumer .B .take, .consumer .B .signal,
    .recvReady, .recvReady]

end strategy

/-! ## float64 rounding -/

/-- With enough fuel the division loop computes the integer logarithm. -/
theorem natLogAux_eq (b : Nat) (hb : 1 < b) :
    ∀ fuel n, n ≤ fuel → natLogAux b fuel n = Nat.log b n := by
  intro fuel
  induction fuel with
  | zero =>
    intro n hn
    have : n = 0 := by omega
    subst this
    simp [natLogAux]
  | succ fuel ih =>
    intro n hn
    unfold natLogAux
    split_ifs with h
    · exact (Nat.log_of_lt h).symm
    · have hbn : b ≤ n := by omega
      have hdiv : n / b ≤ fuel := by
        have : n / b < n := Nat.div_lt_self (by omega) hb
        omega
      rw [ih _ hdiv, Nat.log_of_one_lt_of_le hb hbn]

/-- The executable `natLog` is the integer logarithm `Nat.log`. -/
theorem natLog_eq (b n : Nat) (hb : 1 < b) : natLog b n = Nat.log b n :=
  natLogAux_eq b hb n n le_rfl

/-- For `q ≠ 0` the exponent `ilog b q` brackets `|q|` between two consecutive powers of `b`. -/
theorem ilog_spec (b : Nat) (hb : 1 < b) (q : ℚ) (hq : q ≠ 0) :
    (b : ℚ) ^ ilog b q ≤ |q| ∧ |q| < (b : ℚ) ^ (ilog b q + 1) := by
  have hb0 : (0 : ℚ) < b := by exact_mod_cast (by omega : 0 < b)
  have hb1 : (1 : ℚ) < b := by exact_mod_cast hb
  have hn0 : q.num.natAbs ≠ 0 := by
    simpa [Int.natAbs_eq_zero] using hq
  have hd0 : q.den ≠ 0 := q.den_nz
  have habs : |q| = (q.num.natAbs : ℚ) / (q.den : ℚ) := by
    have h1 : |q| = |(q.num : ℚ)| / |(q.den : ℚ)| := by
      conv_lhs => rw [← Rat.num_div_den q]
      rw [abs_div]
    rw [h1, Nat.abs_cast, ← Int.cast_abs, Int.abs_eq_natAbs, Int.cast_natCast]
  set n := q.num.natAbs with hn
  set d := q.den with hd
  have hdpos : (0 : ℚ) < d := by exact_mod_cast Nat.pos_of_ne_zero hd0
  have hn1 : (b : ℚ) ^ (Nat.log b n) ≤ n := by exact_mod_cast Nat.pow_log_le_self b hn0
  have hn2 : (n : ℚ) < (b : ℚ) ^ (Nat.log b n + 1) := by
    exact_mod_cast Nat.lt_pow_succ_log_self hb n
  have hd1 : (b : ℚ) ^ (Nat.log b d) ≤ d := by exact_mod_cast Nat.pow_log_le_self b hd0
  have hd2 : (d : ℚ) < (b : ℚ) ^ (Nat.log b d + 1) := by
    exact_mod_cast Nat.lt_pow_succ_log_self hb d
  have hbne : (b : ℚ) ≠ 0 := ne_of_gt hb0
  -- the raw estimate k = log n - log d is off by at most one
  have hlow : (b : ℚ) ^ ((Nat.log b n : ℤ) - (Nat.log b d : ℤ) - 1) ≤ |q| := by
    rw [habs, le_div_iff₀ hdpos]
    have e1 : (b : ℚ) ^ ((Nat.log b n : ℤ) - (Nat.log b d : ℤ) - 1)
        = (b : ℚ) ^ (Nat.log b n) / (b : ℚ) ^ (Nat.log b d + 1) := by
      rw [show ((Nat.log b n : ℤ) - (Nat.log b d : ℤ) - 1) = (Nat.log b n : ℤ) - ((Nat.log b d + 1 : ℕ) : ℤ) by push_cast; ring]
      rw [zpow_sub₀ hbne, zpow_natCast, zpow_natCast]
    rw [e1, div_mul_eq_mul_div, div_le_iff₀ (by positivity)]
    calc (b : ℚ) ^ Nat.log b n * d ≤ n * d := by gcongr
      _ ≤ n * (b : ℚ) ^ (Nat.log b d + 1) := by gcongr
  have hhigh : |q| < (b : ℚ) ^ ((Nat.log b n : ℤ) - (Nat.log b d : ℤ) + 1) := by
    rw [habs, div_lt_iff₀ hdpos]
    have e1 : (b : ℚ) ^ ((Nat.log b n : ℤ) - (Nat.log b d : ℤ) + 1)
        = (b : ℚ) ^ (Nat.log b n + 1) / (b : ℚ) ^ (Nat.log b d) := by
      rw [show ((Nat.log b n : ℤ) - (Nat.log b d : ℤ) + 1) = ((Nat.log b n + 1 : ℕ) : ℤ) - (Nat.log b d : ℤ) by push_cast; ring]
      rw [zpow_sub₀ hbne, zpow_natCast, zpow_natCast]
    rw [e1, div_mul_eq_mul_div, lt_div_iff₀ (by positivity)]
    calc (n : ℚ) * (b : ℚ) ^ Nat.log b d < (b : ℚ) ^ (Nat.log b n + 1) * (b : ℚ) ^ Nat.log b d := by
          gcongr
      _ ≤ (b : ℚ) ^ (Nat.log b n + 1) * d := by gcongr
  unfold ilog
  simp only [natLog_eq _ _ hb]
  rw [← hn, ← hd]
  split_ifs with h
  · refine ⟨hlow, ?_⟩
    simpa using h
  · refine ⟨le_of_not_lt h, hhigh⟩

/-- Rounding half-even never goes below the floor. -/
theorem floor_le_roundHalfEven (q : ℚ) : ⌊q⌋ ≤ roundHalfEven q := by
  unfold roundHalfEven
  simp only
  split_ifs <;> omega

/-- Rounding half-even never goes above the floor plus one. -/
theorem roundHalfEven_le_floor_succ (q : ℚ) : roundHalfEven q ≤ ⌊q⌋ + 1 := by
  unfold roundHalfEven
  simp only
  split_ifs <;> omega

/-- Integers round to themselves. -/
theorem roundHalfEven_intCast (n : ℤ) : roundHalfEven (n : ℚ) = n := by
  unfold roundHalfEven
  simp

/-- Rounding half-even is monotone. -/
theorem roundHalfEven_mono {q₁ q₂ : ℚ} (h : q₁ ≤ q₂) : roundHalfEven q₁ ≤ roundHalfEven q₂ := by
  have hf : ⌊q₁⌋ ≤ ⌊q₂⌋ := Int.floor_mono h
  rcases hf.lt_or_eq with hlt | heq
  · calc roundHalfEven q₁ ≤ ⌊q₁⌋ + 1 := roundHalfEven_le_floor_succ q₁
      _ ≤ ⌊q₂⌋ := hlt
      _ ≤ roundHalfEven q₂ := floor_le_roundHalfEven q₂
  · unfold roundHalfEven
    simp only
    rw [heq]
    split_ifs <;> first | omega | (exfalso; linarith)

/-- Rounding half-even is odd: ties go to the even neighbour on both sides of zero. -/
theorem roundHalfEven_neg (q : ℚ) : roundHalfEven (-q) = -roundHalfEven q := by
  have h1 : (⌊q⌋ : ℚ) ≤ q := Int.floor_le q
  have h2 : q < ⌊q⌋ + 1 := Int.lt_floor_add_one q
  rcases h1.lt_or_eq with hlt | heq
  · have hfl : ⌊-q⌋ = -⌊q⌋ - 1 := by
      rw [Int.floor_eq_iff]
      push_cast
      constructor <;> linarith
    unfold roundHalfEven
    simp only
    rw [hfl]
    push_cast
    split_ifs <;> first | omega | (exfalso; linarith)
  · have hq : q = ((⌊q⌋ : ℤ) : ℚ) := heq.symm
    rw [hq, ← Int.cast_neg, roundHalfEven_intCast, roundHalfEven_intCast]

/-- A non-negative rational rounds to a non-negative integer. -/
theorem roundHalfEven_nonneg {q : ℚ} (h : 0 ≤ q) : 0 ≤ roundHalfEven q :=
  le_trans (Int.floor_nonneg.mpr h) (floor_le_roundHalfEven q)

/-- Rounding does not cross an integer above. -/
theorem roundHalfEven_le_of_le_int {q : ℚ} {n : ℤ} (h : q ≤ n) : roundHalfEven q ≤ n := by
  have := roundHalfEven_mono h
  rwa [roundHalfEven_intCast] at this

/-- Rounding does not cross an integer below. -/
theorem le_roundHalfEven_of_int_le {q : ℚ} {n : ℤ} (h : (n : ℚ) ≤ q) : n ≤ roundHalfEven q := by
  have := roundHalfEven_mono h
  rwa [roundHalfEven_intCast] at this

/-- The exponent ignores the sign. -/
theorem ilog_neg (b : Nat) (q : ℚ) : ilog b (-q) = ilog b q := by
  unfold ilog
  simp [Rat.num_neg_eq_neg_num, Rat.den_neg_eq_den]

/-- The binary64 exponent ignores the sign. -/
theorem f64exp_neg (q : ℚ) : f64exp (-q) = f64exp q := by
  unfold f64exp
  rw [ilog_neg]

/-- Binary64 rounding is odd. -/
theorem f64round_neg (q : ℚ) : f64round (-q) = -f64round q := by
  unfold f64round
  by_cases h : q = 0
  · simp [h]
  · have h' : -q ≠ 0 := neg_ne_zero.mpr h
    rw [if_neg h, if_neg h', f64exp_neg, neg_div, roundHalfEven_neg]
    push_cast
    ring

/-- Powers of two are positive. -/
theorem two_zpow_pos (e : ℤ) : (0 : ℚ) < (2 : ℚ) ^ e := zpow_pos (by norm_num) e

/-- Splitting a power of two at a smaller exponent leaves an integer factor. -/
theorem two_zpow_split (a e : ℤ) (n : ℕ) (h : a - e = n) :
    (2 : ℚ) ^ a = ((2 ^ n : ℤ) : ℚ) * (2 : ℚ) ^ e := by
  have ha : a = (n : ℤ) + e := by omega
  rw [ha, zpow_add₀ (by norm_num : (2 : ℚ) ≠ 0), zpow_natCast]
  push_cast
  rfl

/-- The binary exponent is monotone on positive rationals. -/
theorem ilog_two_mono {q₁ q₂ : ℚ} (h₁ : 0 < q₁) (h : q₁ ≤ q₂) : ilog 2 q₁ ≤ ilog 2 q₂ := by
  have h₂ : 0 < q₂ := lt_of_lt_of_le h₁ h
  have s₁ := ilog_spec 2 (by norm_num) q₁ (ne_of_gt h₁)
  have s₂ := ilog_spec 2 (by norm_num) q₂ (ne_of_gt h₂)
  rw [abs_of_pos h₁] at s₁
  rw [abs_of_pos h₂] at s₂
  have : ((2 : ℕ) : ℚ) ^ ilog 2 q₁ < ((2 : ℕ) : ℚ) ^ (ilog 2 q₂ + 1) :=
    lt_of_le_of_lt (le_trans s₁.1 h) s₂.2
  have hlt := (zpow_lt_zpow_iff_right₀ (by norm_num : (1 : ℚ) < ((2 : ℕ) : ℚ))).mp this
  omega

/-- Binary64 rounding keeps non-negative values non-negative. -/
theorem f64round_nonneg {q : ℚ} (h : 0 ≤ q) : 0 ≤ f64round q := by
  unfold f64round
  split_ifs with h0
  · exact le_rfl
  · apply mul_nonneg _ (two_zpow_pos _).le
    exact_mod_cast roundHalfEven_nonneg (div_nonneg h (two_zpow_pos _).le)

/-- Binary64 rounding is monotone on positive rationals, also across a change of exponent. -/
theorem f64round_mono_pos {q₁ q₂ : ℚ} (h₁ : 0 < q₁) (h : q₁ ≤ q₂) :
    f64round q₁ ≤ f64round q₂ := by
  have h₂ : 0 < q₂ := lt_of_lt_of_le h₁ h
  have hk := ilog_two_mono h₁ h
  have s₁ := ilog_spec 2 (by norm_num) q₁ (ne_of_gt h₁)
  have s₂ := ilog_spec 2 (by norm_num) q₂ (ne_of_gt h₂)
  rw [abs_of_pos h₁] at s₁
  rw [abs_of_pos h₂] at s₂
  simp only [Nat.cast_ofNat] at s₁ s₂
  unfold f64round
  rw [if_neg (ne_of_gt h₁), if_neg (ne_of_gt h₂)]
  have he : f64exp q₁ ≤ f64exp q₂ := by unfold f64exp; omega
  rcases he.lt_or_eq with hlt | heq
  · -- the exponents differ: the power of two 2^(ilog q₂) separates the two values
    have hk₂ : f64exp q₂ = ilog 2 q₂ - 52 := by unfold f64exp at hlt ⊢; omega
    have hk₁ : f64exp q₁ < ilog 2 q₂ - 52 := by rw [← hk₂]; exact hlt
    have hk₁' : ilog 2 q₁ + 1 ≤ ilog 2 q₂ := by unfold f64exp at hk₁; omega
    have hmid₁ : q₁ ≤ (2 : ℚ) ^ ilog 2 q₂ :=
      le_trans s₁.2.le (zpow_le_zpow_right₀ (by norm_num) hk₁')
    -- left value rounds to at most 2^(ilog q₂)
    have hleft : (roundHalfEven (q₁ / (2 : ℚ) ^ f64exp q₁) : ℚ) * (2 : ℚ) ^ f64exp q₁
        ≤ (2 : ℚ) ^ ilog 2 q₂ := by
      obtain ⟨n, hn⟩ : ∃ n : ℕ, ilog 2 q₂ - f64exp q₁ = n :=
        ⟨(ilog 2 q₂ - f64exp q₁).toNat, by omega⟩
      have hpow : (2 : ℚ) ^ ilog 2 q₂ = ((2 ^ n : ℤ) : ℚ) * (2 : ℚ) ^ f64exp q₁ :=
        two_zpow_split _ _ n hn
      rw [hpow]
      apply mul_le_mul_of_nonneg_right _ (two_zpow_pos _).le
      have : roundHalfEven (q₁ / (2 : ℚ) ^ f64exp q₁) ≤ (2 ^ n : ℤ) := by
        apply roundHalfEven_le_of_le_int
        rw [div_le_iff₀ (two_zpow_pos _), ← hpow]
        exact hmid₁
      exact_mod_cast this
    have hright : (2 : ℚ) ^ ilog 2 q₂
        ≤ (roundHalfEven (q₂ / (2 : ℚ) ^ f64exp q₂) : ℚ) * (2 : ℚ) ^ f64exp q₂ := by
      have hpow : (2 : ℚ) ^ ilog 2 q₂ = ((2 ^ 52 : ℤ) : ℚ) * (2 : ℚ) ^ f64exp q₂ :=
        two_zpow_split _ _ 52 (by rw [hk₂]; push_cast; ring)
      rw [hpow]
      apply mul_le_mul_of_nonneg_right _ (two_zpow_pos _).le
      have : (2 ^ 52 : ℤ) ≤ roundHalfEven (q₂ / (2 : ℚ) ^ f64exp q₂) := by
        apply le_roundHalfEven_of_int_le
        rw [le_div_iff₀ (two_zpow_pos _), ← hpow]
        exact s₂.1
      exact_mod_cast this
    exact le_trans hleft hright
  · rw [heq]
    apply mul_le_mul_of_nonneg_right _ (two_zpow_pos _).le
    have : roundHalfEven (q₁ / (2 : ℚ) ^ f64exp q₂) ≤ roundHalfEven (q₂ / (2 : ℚ) ^ f64exp q₂) :=
      roundHalfEven_mono (div_le_div_of_nonneg_right h (two_zpow_pos _).le)
    exact_mod_cast this

/-- Zero rounds to zero. -/
theorem f64round_zero : f64round 0 = 0 := by simp [f64round]

/-- Binary64 rounding is monotone. -/
theorem f64round_mono {q₁ q₂ : ℚ} (h : q₁ ≤ q₂) : f64round q₁ ≤ f64round q₂ := by
  rcases lt_trichotomy q₁ 0 with n₁ | z₁ | p₁
  · rcases lt_or_le q₂ 0 with n₂ | p₂
    · have := f64round_mono_pos (neg_pos.mpr n₂) (neg_le_neg h)
      rw [f64round_neg, f64round_neg] at this
      linarith
    · have a := f64round_nonneg p₂
      have b := f64round_nonneg (neg_pos.mpr n₁).le
      rw [f64round_neg] at b
      linarith
  · rw [z₁, f64round_zero]
    exact f64round_nonneg (z₁ ▸ h)
  · exact f64round_mono_pos p₁ h

/-- A positive value with at most 53 significant bits above the subnormal exponent is a float64: rounding keeps it. -/
theorem f64round_int_mul (m e : ℤ) (he : -1074 ≤ e) (hm0 : 0 < m) (hm : m ≤ 2 ^ 53) :
    f64round ((m : ℚ) * (2 : ℚ) ^ e) = (m : ℚ) * (2 : ℚ) ^ e := by
  have hmq : (0 : ℚ) < m := by exact_mod_cast hm0
  have hv : (0 : ℚ) < (m : ℚ) * (2 : ℚ) ^ e := mul_pos hmq (two_zpow_pos e)
  have s := ilog_spec 2 (by norm_num) _ (ne_of_gt hv)
  rw [abs_of_pos hv] at s
  simp only [Nat.cast_ofNat] at s
  set k := ilog 2 ((m : ℚ) * (2 : ℚ) ^ e) with hkdef
  have hup : (m : ℚ) * (2 : ℚ) ^ e ≤ (2 : ℚ) ^ (53 + e) := by
    rw [zpow_add₀ (by norm_num : (2 : ℚ) ≠ 0)]
    apply mul_le_mul_of_nonneg_right _ (two_zpow_pos _).le
    have : ((m : ℤ) : ℚ) ≤ ((2 ^ 53 : ℤ) : ℚ) := by exact_mod_cast hm
    norm_num at this ⊢
    exact this
  have hk1 : k ≤ 53 + e := by
    have : (2 : ℚ) ^ k ≤ (2 : ℚ) ^ (53 + e) := le_trans s.1 hup
    exact (zpow_le_zpow_iff_right₀ (by norm_num : (1 : ℚ) < 2)).mp this
  unfold f64round
  rw [if_neg (ne_of_gt hv)]
  have hexp : f64exp ((m : ℚ) * (2 : ℚ) ^ e) = max (k - 52) (-1074) := rfl
  rw [hexp]
  set e' := max (k - 52) (-1074) with he'
  rcases le_or_lt e' e with hle | hlt
  · obtain ⟨n, hn⟩ : ∃ n : ℕ, e - e' = n := ⟨(e - e').toNat, by omega⟩
    have hsplit := two_zpow_split e e' n hn
    have hdiv : (m : ℚ) * (2 : ℚ) ^ e / (2 : ℚ) ^ e' = ((m * 2 ^ n : ℤ) : ℚ) := by
      rw [hsplit, div_eq_iff (ne_of_gt (two_zpow_pos _))]
      push_cast
      ring
    rw [hdiv, roundHalfEven_intCast, hsplit]
    push_cast
    ring
  · have hk2 : k = e + 53 := by omega
    have he'2 : e' = e + 1 := by omega
    have hm2 : m = 2 ^ 53 := by
      apply le_antisymm hm
      have h1 : (2 : ℚ) ^ (e + 53) ≤ (m : ℚ) * (2 : ℚ) ^ e := hk2 ▸ s.1
      rw [zpow_add₀ (by norm_num : (2 : ℚ) ≠ 0), mul_comm] at h1
      have h2 : (2 : ℚ) ^ (53 : ℤ) ≤ (m : ℚ) := le_of_mul_le_mul_right h1 (two_zpow_pos e)
      have h3 : ((2 ^ 53 : ℤ) : ℚ) ≤ (m : ℚ) := by
        norm_num at h2 ⊢
        exact h2
      exact_mod_cast h3
    have hsplit := two_zpow_split e' e 1 (by omega)
    have hdiv : (m : ℚ) * (2 : ℚ) ^ e / (2 : ℚ) ^ e' = ((2 ^ 52 : ℤ) : ℚ) := by
      rw [hsplit, div_eq_iff (ne_of_gt (mul_pos (by positivity) (two_zpow_pos _))), hm2]
      push_cast
      ring
    rw [hdiv, roundHalfEven_intCast, hsplit, hm2]
    push_cast
    ring

/-- Rounding a rounded positive value changes nothing. -/
theorem f64round_idem_pos {q : ℚ} (hq : 0 < q) : f64round (f64round q) = f64round q := by
  have s := ilog_spec 2 (by norm_num) q (ne_of_gt hq)
  rw [abs_of_pos hq] at s
  simp only [Nat.cast_ofNat] at s
  have hform : f64round q
      = (roundHalfEven (q / (2 : ℚ) ^ f64exp q) : ℚ) * (2 : ℚ) ^ f64exp q := by
    unfold f64round
    rw [if_neg (ne_of_gt hq)]
  have hm0 : 0 ≤ roundHalfEven (q / (2 : ℚ) ^ f64exp q) :=
    roundHalfEven_nonneg (div_nonneg hq.le (two_zpow_pos _).le)
  have he : -1074 ≤ f64exp q := by unfold f64exp; omega
  have hm : roundHalfEven (q / (2 : ℚ) ^ f64exp q) ≤ 2 ^ 53 := by
    apply roundHalfEven_le_of_le_int
    rw [div_le_iff₀ (two_zpow_pos _)]
    obtain ⟨n, hn⟩ : ∃ n : ℕ, (53 + f64exp q) - (ilog 2 q + 1) = n :=
      ⟨((53 + f64exp q) - (ilog 2 q + 1)).toNat, by unfold f64exp; omega⟩
    have h1 : (2 : ℚ) ^ (ilog 2 q + 1) ≤ (2 : ℚ) ^ (53 + f64exp q) :=
      zpow_le_zpow_right₀ (by norm_num) (by omega)
    have h2 : (2 : ℚ) ^ (53 + f64exp q) = ((2 ^ 53 : ℤ) : ℚ) * (2 : ℚ) ^ f64exp q :=
      two_zpow_split _ _ 53 (by push_cast; ring)
    rw [← h2]
    exact le_trans s.2.le h1
  rcases hm0.lt_or_eq with hpos | hzero
  · rw [hform]
    exact f64round_int_mul _ _ he hpos hm
  · rw [hform, ← hzero]
    simp [f64round_zero]

/-- Binary64 rounding is idempotent: its results are float64 values. -/
theorem f64round_idem (q : ℚ) : f64round (f64round q) = f64round q := by
  rcases lt_trichotomy q 0 with n | z | p
  · have := f64round_idem_pos (neg_pos.mpr n)
    rw [f64round_neg, f64round_neg] at this
    linarith
  · rw [z, f64round_zero, f64round_zero]
  · exact f64round_idem_pos p

/-! ## `NewFromFloat` -/

/-- Rounding half-even returns the floor or the floor plus one. -/
theorem roundHalfEven_eq_or (q : ℚ) : roundHalfEven q = ⌊q⌋ ∨ roundHalfEven q = ⌊q⌋ + 1 := by
  unfold roundHalfEven
  simp only
  split_ifs <;> simp

/-- A decimal accepted by the digit search converts back to the float. -/
theorem shortestAt_roundtrip {v : float64} {n : Nat} {d : Decimal}
    (h : shortestAt v n = some d) : f64round d = v := by
  unfold shortestAt at h
  simp only at h
  generalize (if v < 0 then (-1 : ℚ) else 1) = sgn at h
  split_ifs at h with h₁ h₂ h₃
  · rcases roundHalfEven_eq_or (|v| * (10 : ℚ) ^ ((n : ℤ) - 1 - ilog 10 v)) with e | e
    · rw [e] at h
      rw [← Option.some.inj h]
      exact h₁
    · rw [e] at h
      rw [← Option.some.inj h]
      exact h₂
  · rw [← Option.some.inj h]
    exact h₁
  · rw [← Option.some.inj h]
    exact h₃

/-- The result of the digit search converts back to the float. -/
theorem shortestFrom_roundtrip {v : float64} (hv : f64round v = v) :
    ∀ fuel n, f64round (shortestFrom v fuel n) = v := by
  intro fuel
  induction fuel with
  | zero => intro n; simpa [shortestFrom] using hv
  | succ fuel ih =>
    intro n
    unfold shortestFrom
    cases h : shortestAt v n with
    | none => exact ih (n + 1)
    | some d => exact shortestAt_roundtrip h

/-- The decimal `NewFromFloat v` of a float64 `v` converts back to `v`. -/
theorem f64round_NewFromFloat {v : float64} (hv : f64round v = v) :
    f64round (NewFromFloat v) = v := by
  unfold NewFromFloat
  split_ifs with h0
  · rw [h0, f64round_zero]
  · exact shortestFrom_roundtrip hv 17 1

/-- On float64 values `NewFromFloat` is monotone. -/
theorem NewFromFloat_mono {a b : float64} (ha : f64round a = a) (hb : f64round b = b)
    (h : a ≤ b) : NewFromFloat a ≤ NewFromFloat b := by
  rcases h.lt_or_eq with hlt | heq
  · by_contra hcon
    have hle : NewFromFloat b ≤ NewFromFloat a := le_of_lt (not_le.mp hcon)
    have := f64round_mono hle
    rw [f64round_NewFromFloat ha, f64round_NewFromFloat hb] at this
    exact absurd hlt (not_lt.mpr this)
  · rw [heq]

/-- The composition of rounding to float64 and `NewFromFloat` is monotone. -/
theorem NewFromFloat_f64round_mono {p q : ℚ} (h : p ≤ q) :
    NewFromFloat (f64round p) ≤ NewFromFloat (f64round q) :=
  NewFromFloat_mono (f64round_idem p) (f64round_idem q) (f64round_mono h)

namespace strategy

open exchange

/-! ### Profit: C1, C2, C3, C10 -/

/-- C1, the code at the worked case (A: ask 110, bid 100, fee 0.001; B: ask 105, bid 95,
fee 0.002; slippage 0.0005). For plan AB, `calcAdjustedProfit(105, 100)` charges the sell
leg with A's rate and the buy leg with B's rate: `sellFees = 0.105`, `buyFees = 0.2`, the
multipliers are exactly 0.9995 and 1.0005, and the profit is 4.5925 (tagged profitable),
not the 4.5875 that the fees 0.21 and 0.1 would give. Plan BA evaluates to 14.5975. -/
theorem calcAdjustedProfit_worked_case :
    caseStrategy.sellFees casePriceB.Ask = 105 / 1000 ∧
    caseStrategy.buyFees casePriceA.Bid = 2 / 10 ∧
    caseStrategy.sellSlip = 9995 / 10000 ∧
    caseStrategy.buySlip = 10005 / 10000 ∧
    caseStrategy.calcAdjustedProfit casePriceB.Ask casePriceA.Bid = 45925 / 10000 ∧
    caseStrategy.calcAdjustedProfit 105 100 = 45925 / 10000 ∧
    caseStrategy.calcAdjustedProfit 105 100 ≠ 45875 / 10000 ∧
    caseStrategy.sellFees 105 ≠ 21 / 100 ∧ caseStrategy.buyFees 100 ≠ 1 / 10 ∧
    (caseStrategy.tick casePriceA casePriceB 0 0).map (fun l => (l.plan.profit, l.tag))
      = [(45925 / 10000, "profit: yes |"), (145975 / 10000, "profit: yes |")] := by
  decide!

/-- C2, the code at slippage 0.00272 with no fees: `calcAdjustedProfit(1, 0)` is
0.9972799999999999, because `1.0 - strat.Slipage` is computed in float64 before the
conversion to decimal. It is not `1 * (1 - s) - 0 * (1 + s) - (1 * 0 + 0 * 0) = 0.99728`,
neither for `s` the float64 stored in `Slipage` nor for `s` the decimal 0.00272, although
the source comments the product as `sell x (1 - slip)`. Converting the slippage to decimal
first, as `Fees()` does with the fee, gives exactly 0.00272 and the multiplier 0.99728. -/
theorem calcAdjustedProfit_formula_fails :
    slipCaseSell.calcAdjustedProfit 1 0 = 9972799999999999 / 10000000000000000 ∧
    slipCaseSell.sellSlip = 9972799999999999 / 10000000000000000 ∧
    NewFromFloat slipCaseSell.Slipage = 272 / 100000 ∧
    (1 * (1 - 272 / 100000) - 0 * (1 + 272 / 100000) : Decimal)
        - (1 * slipCaseSell.exchangeA.Fees + 0 * slipCaseSell.exchangeB.Fees)
      = 99728 / 100000 ∧
    slipCaseSell.calcAdjustedProfit 1 0
      ≠ (1 * (1 - slipCaseSell.Slipage) - 0 * (1 + slipCaseSell.Slipage))
        - (1 * slipCaseSell.exchangeA.Fees + 0 * slipCaseSell.exchangeB.Fees) ∧
    slipCaseSell.calcAdjustedProfit 1 0
      ≠ (1 * (1 - 272 / 100000) - 0 * (1 + 272 / 100000))
        - (1 * slipCaseSell.exchangeA.Fees + 0 * slipCaseSell.exchangeB.Fees) := by
  decide!

/-- The code as written: `calcAdjustedProfit(sell, buy)` computes
`(sell * m₁ - buy * m₂) - (sell * feeA + buy * feeB)` with the multipliers
`m₁ = NewFromFloat(1.0 - s)` and `m₂ = NewFromFloat(1.0 + s)` taken through float64, and a
tick calls it for both directions with the same fee assignment: the sell leg is charged
exchange A's rate and the buy leg exchange B's rate in plan AB and in plan BA. -/
theorem calcAdjustedProfit_formula (strat : Strategy) (sell buy : Decimal)
    (priceA priceB : Price) (now₁ now₂ : Time) :
    strat.calcAdjustedProfit sell buy
      = (sell * NewFromFloat (f64sub 1 strat.Slipage)
          - buy * NewFromFloat (f64add 1 strat.Slipage))
        - (sell * strat.exchangeA.Fees + buy * strat.exchangeB.Fees) ∧
    (strat.tick priceA priceB now₁ now₂).map (fun l => l.plan.profit)
      = [(priceB.Ask * NewFromFloat (f64sub 1 strat.Slipage)
            - priceA.Bid * NewFromFloat (f64add 1 strat.Slipage))
          - (priceB.Ask * strat.exchangeA.Fees + priceA.Bid * strat.exchangeB.Fees),
         (priceA.Ask * NewFromFloat (f64sub 1 strat.Slipage)
            - priceB.Bid * NewFromFloat (f64add 1 strat.Slipage))
          - (priceA.Ask * strat.exchangeA.Fees + priceB.Bid * strat.exchangeB.Fees)] := by
  constructor
  · rfl
  · simp only [Strategy.tick, Strategy.calcAdjustedProfit, Strategy.sellSlip, Strategy.buySlip,
      Strategy.sellFees, Strategy.buyFees]
    simp only [List.map_cons, List.map_nil, apply_ite, ite_self]

/-- The sell multiplier does not grow with the slippage. -/
theorem sellSlip_antitone {s₁ s₂ : float64} (h : s₁ ≤ s₂) :
    NewFromFloat (f64sub 1 s₂) ≤ NewFromFloat (f64sub 1 s₁) :=
  NewFromFloat_f64round_mono (by linarith)

/-- The buy multiplier does not shrink with the slippage. -/
theorem buySlip_monotone {s₁ s₂ : float64} (h : s₁ ≤ s₂) :
    NewFromFloat (f64add 1 s₁) ≤ NewFromFloat (f64add 1 s₂) :=
  NewFromFloat_f64round_mono (by linarith)

/-- C3: for non-negative sell and buy prices the profit of `calcAdjustedProfit` never
rises when the slippage is raised, when exchange A's fee rate is raised, or when
exchange B's fee rate is raised, the other inputs being fixed. -/
theorem calcAdjustedProfit_antitone (strat : Strategy) (sell buy : Decimal)
    (hsell : 0 ≤ sell) (hbuy : 0 ≤ buy) :
    (∀ s : float64, strat.Slipage ≤ s →
      Strategy.calcAdjustedProfit { strat with Slipage := s } sell buy
        ≤ strat.calcAdjustedProfit sell buy) ∧
    (∀ fee : Decimal, strat.exchangeA.Fees ≤ fee →
      Strategy.calcAdjustedProfit { strat with exchangeA := { strat.exchangeA with Fees := fee } }
          sell buy
        ≤ strat.calcAdjustedProfit sell buy) ∧
    (∀ fee : Decimal, strat.exchangeB.Fees ≤ fee →
      Strategy.calcAdjustedProfit { strat with exchangeB := { strat.exchangeB with Fees := fee } }
          sell buy
        ≤ strat.calcAdjustedProfit sell buy) := by
  refine ⟨?_, ?_, ?_⟩
  · intro s hs
    have h₁ := mul_le_mul_of_nonneg_left (sellSlip_antitone hs) hsell
    have h₂ := mul_le_mul_of_nonneg_left (buySlip_monotone hs) hbuy
    simp only [Strategy.calcAdjustedProfit, Strategy.sellSlip, Strategy.buySlip,
      Strategy.sellFees, Strategy.buyFees]
    linarith
  · intro fee hfee
    have h₁ := mul_le_mul_of_nonneg_left hfee hsell
    simp only [Strategy.calcAdjustedProfit, Strategy.sellSlip, Strategy.buySlip,
      Strategy.sellFees, Strategy.buyFees]
    linarith
  · intro fee hfee
    have h₁ := mul_le_mul_of_nonneg_left hfee hbuy
    simp only [Strategy.calcAdjustedProfit, Strategy.sellSlip, Strategy.buySlip,
      Strategy.sellFees, Strategy.buyFees]
    linarith

/-- C3 at the worked case: raising the slippage from 0.0005 to 0.0131 lowers the profit
of plan AB from 4.5925 to a value no greater. -/
theorem calcAdjustedProfit_antitone_witness :
    (0 : Decimal) ≤ 105 ∧ (0 : Decimal) ≤ 100 ∧
    Strategy.calcAdjustedProfit { caseStrategy with Slipage := f64lit (131 / 10000) } 105 100
      ≤ caseStrategy.calcAdjustedProfit 105 100 :=
  ⟨by norm_num, by norm_num,
    (calcAdjustedProfit_antitone caseStrategy 105 100 (by norm_num) (by norm_num)).1
      (f64lit (131 / 10000)) (by decide!)⟩

/-- C10, the code at slippage 0.0131 with no fees: `1.0 + strat.Slipage` is computed in
float64, so the buy multiplier is 1.0131000000000001 and not `1 + s`, neither for `s` the
float64 stored in `Slipage` nor for `s` the decimal 0.0131, although the source comments
the product as `buy x (1 + slip)`; converting the slippage to decimal first, as `Fees()`
does with the fee, gives exactly 0.0131. The rounding decides a plan: selling at
1.01310000000000005 and buying at 0.9869 has the exact profit `9869 / (2 * 10 ^ 20) > 0`,
while `calcAdjustedProfit` returns `-9869 / (2 * 10 ^ 20)` and the tick tags the plan
`profit: no  |`. -/
theorem buySlip_not_exact :
    slipCaseBuy.buySlip = 10131000000000001 / 10000000000000000 ∧
    slipCaseBuy.buySlip ≠ 1 + slipCaseBuy.Slipage ∧
    slipCaseBuy.buySlip ≠ 1 + 131 / 10000 ∧
    slipCaseBuy.sellSlip = 9869 / 10000 ∧
    NewFromFloat slipCaseBuy.Slipage = 131 / 10000 ∧
    slipCaseBuy.calcAdjustedProfit 0 1 ≠ (0 * (1 - 131 / 10000) - 1 * (1 + 131 / 10000))
      - (0 * slipCaseBuy.exchangeA.Fees + 1 * slipCaseBuy.exchangeB.Fees) ∧
    ((101310000000000005 / 100000000000000000 : Decimal) * (1 - 131 / 10000)
        - 9869 / 10000 * (1 + 131 / 10000))
        - (101310000000000005 / 100000000000000000 * slipCaseBuy.exchangeA.Fees
          + 9869 / 10000 * slipCaseBuy.exchangeB.Fees)
      = 9869 / 200000000000000000000 ∧
    slipCaseBuy.calcAdjustedProfit (101310000000000005 / 100000000000000000) (9869 / 10000)
      = -9869 / 200000000000000000000 ∧
    (slipCaseBuy.tick { Ask := 0, Bid := 9869 / 10000 }
        { Ask := 101310000000000005 / 100000000000000000, Bid := 0 } 0 0).head?.map
        (fun l => l.tag)
      = some "profit: no  |" := by
  decide!

/-- The code as written: the slippage enters the profit through float64. The multipliers
are `NewFromFloat` of the float64 results `1.0 - s` and `1.0 + s`, decimals that convert
back to exactly those float64 values, so each differs from `1 - s`, `1 + s` by float64
rounding alone; the fee of an exchange is `NewFromFloat` of its float64 configuration value
and converts back to it. The products, difference and sum that follow are exact. For the
slippage 0.0005 the multipliers are exactly 0.9995 and 1.0005. -/
theorem slip_multipliers_roundtrip (strat : Strategy) (sell buy : Decimal)
    (cfg : exchange.Config) (fee : ℚ) :
    strat.sellSlip = NewFromFloat (f64round (1 - strat.Slipage)) ∧
    strat.buySlip = NewFromFloat (f64round (1 + strat.Slipage)) ∧
    f64round strat.sellSlip = f64round (1 - strat.Slipage) ∧
    f64round strat.buySlip = f64round (1 + strat.Slipage) ∧
    f64round (binanceExchange.Fees { cfg with Fees := f64lit fee }) = f64lit fee ∧
    strat.calcAdjustedProfit sell buy
      = (sell * strat.sellSlip - buy * strat.buySlip)
        - (sell * strat.exchangeA.Fees + buy * strat.exchangeB.Fees) ∧
    caseStrategy.sellSlip = 9995 / 10000 ∧ caseStrategy.buySlip = 10005 / 10000 := by
  refine ⟨rfl, rfl, ?_, ?_, ?_, rfl, by decide!, by decide!⟩
  · exact f64round_NewFromFloat (f64round_idem _)
  · exact f64round_NewFromFloat (f64round_idem _)
  · exact f64round_NewFromFloat (f64round_idem _)

end strategy

namespace exchange

/-! ### Symbols: C4, C5 -/

/-- C4, the code on `BTCUSDT`: the pattern accepts the symbol, but the greedy `base`
group takes `BTCUSD` and leaves `T` for `quote`, so the captures are not `BTC` and `USDT`
and `parseBaseAndQuote` returns the pair (`BTCUSD`, `T`) for the price query. The three
symbols with a separator are captured as `BTC` and `USDT`, which `parseBaseAndQuote` maps
to `bitcoin` and `usd`; `formatSymbol` returns `BTCUSDT` with a nil error for all four. -/
theorem regexpTicker_BTCUSDT_split :
    regexpTicker.FindStringSubmatch "BTCUSDT" = ["BTCUSDT", "BTCUSD", "T"] ∧
    regexpTicker.FindStringSubmatch "BTCUSDT" ≠ ["BTCUSDT", "BTC", "USDT"] ∧
    oneInchExchange.parseBaseAndQuote "BTCUSDT" = .returned ("BTCUSD", "T") ∧
    regexpTicker.FindStringSubmatch "BTC-USDT" = ["BTC-USDT", "BTC", "USDT"] ∧
    regexpTicker.FindStringSubmatch "BTC_USDT" = ["BTC_USDT", "BTC", "USDT"] ∧
    regexpTicker.FindStringSubmatch "BTC:USDT" = ["BTC:USDT", "BTC", "USDT"] ∧
    oneInchExchange.parseBaseAndQuote "BTC-USDT" = .returned ("bitcoin", "usd") ∧
    oneInchExchange.parseBaseAndQuote "BTC_USDT" = .returned ("bitcoin", "usd") ∧
    oneInchExchange.parseBaseAndQuote "BTC:USDT" = .returned ("bitcoin", "usd") ∧
    binanceExchange.formatSymbol "BTC-USDT" = ("BTCUSDT", none) ∧
    binanceExchange.formatSymbol "BTC_USDT" = ("BTCUSDT", none) ∧
    binanceExchange.formatSymbol "BTC:USDT" = ("BTCUSDT", none) ∧
    binanceExchange.formatSymbol "BTCUSDT" = ("BTCUSDT", none) := by
  decide

/-- C5, the code on symbols the pattern should reject. `BTC/USDT` does not match
`regexpTicker`, yet `formatSymbol` returns the empty symbol with a nil error and
`binanceExchange.PriceStream` goes on to subscribe to the empty symbol; no symbol makes
`formatSymbol` return an error, so the only errors of `binanceExchange.PriceStream` are
those of the websocket subscription. `oneInchExchange.PriceStream` never looks at the
symbol: for every symbol it returns a stream with a nil error when the interval is
positive and panics in `time.NewTicker` otherwise, never `ErrInvalidSymbol`; and
`parseBaseAndQuote`, called from its polling goroutine, panics on `match[1]` for
`BTC/USDT`. The single token `BTC` even matches the pattern, as
base `BT` and quote `C`. -/
theorem invalid_symbol_not_rejected :
    regexpTicker.FindStringSubmatch "BTC/USDT" = [] ∧
    binanceExchange.formatSymbol "BTC/USDT" = ("", none) ∧
    (∀ symbol, (binanceExchange.formatSymbol symbol).2 = none) ∧
    (∀ ws symbol interval, binanceExchange.PriceStream ws symbol interval
      = match ws (binanceExchange.formatSymbol symbol).1 with
        | .error err => .error err
        | .ok stream => .ok stream) ∧
    (∀ ws interval, binanceExchange.PriceStream ws "BTC/USDT" interval
      = match ws "" with
        | .error err => .error err
        | .ok stream => .ok stream) ∧
    (∀ polled symbol interval, oneInchExchange.PriceStream polled symbol interval
      = if 0 < interval then .returned (.ok polled)
        else .panicked "non-positive interval for NewTicker") ∧
    (∀ polled symbol interval, oneInchExchange.PriceStream polled symbol interval
      ≠ .returned (.error .ErrInvalidSymbol)) ∧
    (∀ polled, oneInchExchange.PriceStream polled "BTC/USDT" 1000000000 = .returned (.ok polled)) ∧
    oneInchExchange.parseBaseAndQuote "BTC/USDT" = .panicked "index out of range" ∧
    regexpTicker.FindStringSubmatch "BTC" = ["BTC", "BT", "C"] ∧
    binanceExchange.formatSymbol "BTC" = ("BTC", none) ∧
    oneInchExchange.parseBaseAndQuote "BTC" = .returned ("BT", "C") := by
  refine ⟨by decide, by decide, fun _ => rfl, fun _ _ _ => rfl, ?_, fun _ _ _ => rfl, ?_,
    fun _ => rfl, by decide, by decide, by decide, by decide⟩
  · intro ws interval
    have h : binanceExchange.formatSymbol "BTC/USDT" = ("", none) := by decide
    simp only [binanceExchange.PriceStream, h]
  · intro polled symbol interval
    unfold oneInchExchange.PriceStream
    split_ifs <;> simp

end exchange

namespace strategy

open exchange

/-! ### priceView: C6 -/

/-- On a view that is already initialized every `Update` only stores the price: no
call blocks and none sends a signal. -/
theorem UpdateAll_of_initialized :
    ∀ (prices : List Price) (mv : priceView), mv.initialized = true →
      mv.UpdateAll prices
        = some ({ mv with price := prices.getLastD mv.price }, List.replicate prices.length false) := by
  intro prices
  induction prices with
  | nil => intro mv _; rfl
  | cons price rest ih =>
    intro mv h
    have hu : mv.Update price = some { mv with price := price } := by
      simp [priceView.Update, h]
    have hrest := ih { mv with price := price } h
    rw [List.getLastD_cons]
    simp only [priceView.UpdateAll, hu, hrest, List.length_cons, List.replicate_succ, ne_eq,
      not_true_eq_false, decide_False]

/-- C6: a fresh view is not ready (`initialized = false`, `signalReady` empty with
capacity 1). In every run of `n ≥ 1` `Update` calls on it no call blocks, the first call
sends the one readiness signal and no later call sends, so `signalReady` holds exactly
one signal, within its capacity; the view ends initialized with the last price stored. -/
theorem priceView_signals_once (exchange : String) (price : Price) (rest : List Price) :
    (newPriceView exchange).initialized = false ∧
    (newPriceView exchange).signalReady = { buf := 0, cap := 1 } ∧
    ∃ mv : priceView,
      (newPriceView exchange).UpdateAll (price :: rest)
        = some (mv, true :: List.replicate rest.length false) ∧
      mv.initialized = true ∧
      mv.signalReady = { buf := 1, cap := 1 } ∧
      mv.price = rest.getLastD price := by
  refine ⟨rfl, rfl, ?_⟩
  have h₁ : (newPriceView exchange).Update price
      = some { exchange := exchange, price := price, initialized := true,
               signalReady := { buf := 1, cap := 1 } } := by
    simp [priceView.Update, newPriceView, Chan.send, Chan.make]
  have h₂ := UpdateAll_of_initialized rest
    { exchange := exchange, price := price, initialized := true,
      signalReady := { buf := 1, cap := 1 } } rfl
  refine ⟨{ exchange := exchange, price := rest.getLastD price, initialized := true,
            signalReady := { buf := 1, cap := 1 } }, ?_, rfl, rfl, rfl⟩
  simp only [priceView.UpdateAll, h₁, h₂]
  simp [newPriceView, Chan.make]

/-! ### One tick: C7 -/

/-- C7: a tick on the snapshots `priceA`, `priceB` logs exactly two plans whatever their
profit. Plan AB buys on A at `priceA.Bid` and sells on B at `priceB.Ask` with profit
`calcAdjustedProfit(priceB.Ask, priceA.Bid)`; plan BA buys on B at `priceB.Bid` and sells
on A at `priceA.Ask` with profit `calcAdjustedProfit(priceA.Ask, priceB.Bid)`. Each line
carries the tag `profit: yes |` exactly when its profit is greater than zero, and
`profit: no  |` otherwise; a scheduled `tickReadB` appends these two lines to the log. -/
theorem tick_emits_both_plans (strat : Strategy) (priceA priceB : Price) (now₁ now₂ : Time) :
    (strat.tick priceA priceB now₁ now₂).map (fun l => l.plan)
      = [{ tradingPair := strat.TradingPair
           timestamp := now₁
           buyExchange := strat.exchangeA.Name
           buyPrice := priceA.Bid
           sellExchange := strat.exchangeB.Name
           sellPrice := priceB.Ask
           profit := strat.calcAdjustedProfit priceB.Ask priceA.Bid
           slipage := strat.Slipage
           totalFee := 0 },
         { tradingPair := strat.TradingPair
           timestamp := now₂
           buyExchange := strat.exchangeB.Name
           buyPrice := priceB.Bid
           sellExchange := strat.exchangeA.Name
           sellPrice := priceA.Ask
           profit := strat.calcAdjustedProfit priceA.Ask priceB.Bid
           slipage := strat.Slipage
           totalFee := 0 }] ∧
    (strat.tick priceA priceB now₁ now₂).map (fun l => l.tag)
      = [if 0 < strat.calcAdjustedProfit priceB.Ask priceA.Bid then "profit: yes |"
           else "profit: no  |",
         if 0 < strat.calcAdjustedProfit priceA.Ask priceB.Bid then "profit: yes |"
           else "profit: no  |"] ∧
    (∀ l ∈ strat.tick priceA priceB now₁ now₂,
      (l.tag = "profit: yes |" ↔ 0 < l.plan.profit) ∧
      (l.tag = "profit: no  |" ↔ ¬ 0 < l.plan.profit)) ∧
    (∀ s : RunState, s.main = .readB priceA → s.feedB.readPrice = some priceB →
      ∃ s', s.step strat (.tickReadB now₁ now₂) = some s' ∧
        s'.emitted = s.emitted ++ strat.tick priceA priceB now₁ now₂ ∧ s'.main = .select) := by
  refine ⟨?_, ?_, ?_, ?_⟩
  · simp only [Strategy.tick, List.map_cons, List.map_nil, apply_ite, ite_self]
  · simp only [Strategy.tick, List.map_cons, List.map_nil, apply_ite]
  · intro l hl
    simp only [Strategy.tick, List.mem_cons, List.mem_singleton, List.mem_nil_iff, or_false] at hl
    rcases hl with rfl | rfl
    · by_cases h : 0 < strat.calcAdjustedProfit priceB.Ask priceA.Bid
      · simp [h]
      · simp [h]
    · by_cases h : 0 < strat.calcAdjustedProfit priceA.Ask priceB.Bid
      · simp [h]
      · simp [h]
  · intro s hmain hread
    refine ⟨{ s with main := .select,
                     emitted := s.emitted ++ strat.tick priceA priceB now₁ now₂ }, ?_, rfl, rfl⟩
    simp only [RunState.step, hmain, hread]

end strategy

namespace strategy

open exchange

/-! ### Startup: C8 -/

/-- With both streams opened `initDualPriceViews` starts the two consumers on fresh views
and `Run` goes on to execute the schedule. -/
theorem Strategy.Run_of_opened (strat : Strategy) (streamA streamB : List Price)
    (hA : strat.exchangeA.PriceStream strat.TradingPair strat.Interval = .ok streamA)
    (hB : strat.exchangeB.PriceStream strat.TradingPair strat.Interval = .ok streamB)
    (sched : List Action) :
    strat.Run sched
      = .ok (RunState.exec strat
          (RunState.start (newPriceView strat.exchangeA.Name)
            (newPriceView strat.exchangeB.Name) streamA streamB) sched) := by
  simp only [Strategy.Run, Strategy.initDualPriceViews, hA, hB]

/-- C8: when `PriceStream` of exchange A fails, or that of A succeeds and that of B
fails, `initDualPriceViews` returns `errInitPriceStream` wrapped around the cause and no
views, having called `PriceStream` once per exchange up to the failure, and `Run` returns
that error under every schedule: no goroutine is started and no tick is evaluated. When
both calls succeed `initDualPriceViews` starts the two consumers on fresh views and `Run`
returns no startup error. -/
theorem startup_error_returned (strat : Strategy) :
    (∀ err, strat.exchangeA.PriceStream strat.TradingPair strat.Interval = .error err →
      strat.initDualPriceViews strat.TradingPair
        = ([strat.exchangeA.Name], .error (.wrap .errInitPriceStream err)) ∧
      ∀ sched, strat.Run sched = .error (.wrap .errInitPriceStream err)) ∧
    (∀ streamA err, strat.exchangeA.PriceStream strat.TradingPair strat.Interval = .ok streamA →
      strat.exchangeB.PriceStream strat.TradingPair strat.Interval = .error err →
      strat.initDualPriceViews strat.TradingPair
        = ([strat.exchangeA.Name, strat.exchangeB.Name],
            .error (.wrap .errInitPriceStream err)) ∧
      ∀ sched, strat.Run sched = .error (.wrap .errInitPriceStream err)) ∧
    (∀ streamA streamB,
      strat.exchangeA.PriceStream strat.TradingPair strat.Interval = .ok streamA →
      strat.exchangeB.PriceStream strat.TradingPair strat.Interval = .ok streamB →
      strat.initDualPriceViews strat.TradingPair
        = ([strat.exchangeA.Name, strat.exchangeB.Name],
            .ok (RunState.start (newPriceView strat.exchangeA.Name)
              (newPriceView strat.exchangeB.Name) streamA streamB)) ∧
      ∀ sched, strat.Run sched
        = .ok (RunState.exec strat
            (RunState.start (newPriceView strat.exchangeA.Name)
              (newPriceView strat.exchangeB.Name) streamA streamB) sched)) ∧
    (∀ err, (GoError.wrap .errInitPriceStream err).Is .errInitPriceStream = true) := by
  refine ⟨?_, ?_, ?_, ?_⟩
  · intro err hA
    have h : strat.initDualPriceViews strat.TradingPair
        = ([strat.exchangeA.Name], .error (.wrap .errInitPriceStream err)) := by
      simp only [Strategy.initDualPriceViews, hA]
    exact ⟨h, fun sched => by simp only [Strategy.Run, h]⟩
  · intro streamA err hA hB
    have h : strat.initDualPriceViews strat.TradingPair
        = ([strat.exchangeA.Name, strat.exchangeB.Name],
            .error (.wrap .errInitPriceStream err)) := by
      simp only [Strategy.initDualPriceViews, hA, hB]
    exact ⟨h, fun sched => by simp only [Strategy.Run, h]⟩
  · intro streamA streamB hA hB
    have h : strat.initDualPriceViews strat.TradingPair
        = ([strat.exchangeA.Name, strat.exchangeB.Name],
            .ok (RunState.start (newPriceView strat.exchangeA.Name)
              (newPriceView strat.exchangeB.Name) streamA streamB)) := by
      simp only [Strategy.initDualPriceViews, hA, hB]
    exact ⟨h, fun sched => by simp only [Strategy.Run, h]⟩
  · intro err
    simp [GoError.Is]

/-- C8 at concrete exchanges: with a failing exchange A, and with a failing exchange B,
`Run` returns the wrapped error under the schedule that tries to start a consumer; with
two working exchanges the empty schedule leaves `Run` waiting on `viewA.signalReady`. -/
theorem startup_error_returned_witness :
    Strategy.Run (pairStrategy 0 (failingExchange "A" 0 (.external "dial")) caseExchangeB)
        [.consumer .A .take]
      = .error (.wrap .errInitPriceStream (.external "dial")) ∧
    Strategy.Run (pairStrategy 0 caseExchangeA (failingExchange "B" 0 .ErrInvalidSymbol))
        [.consumer .A .take]
      = .error (.wrap .errInitPriceStream .ErrInvalidSymbol) ∧
    caseStrategy.Run []
      = .ok (some (RunState.start (newPriceView "A") (newPriceView "B")
          [casePriceA] [casePriceB])) :=
  ⟨((startup_error_returned _).1 (.external "dial") rfl).2 _,
    ((startup_error_returned _).2.1 [casePriceA] .ErrInvalidSymbol rfl rfl).2 _,
    ((startup_error_returned caseStrategy).2.2.1 [casePriceA] [casePriceB] rfl rfl).2 []⟩

/-! ### Readiness before evaluation: C9 -/

/-- The invariant `FeedInv` only depends on the truth of `past`. -/
theorem FeedInv.of_iff {delivered : List Price} {past past' : Prop} {f : Feed}
    (h : past ↔ past') (inv : FeedInv delivered past f) : FeedInv delivered past' f :=
  { cap_one := inv.cap_one
    stream_sub := inv.stream_sub
    held_mem := inv.held_mem
    price_mem := inv.price_mem
    mark_uninit := inv.mark_uninit
    buf_one := fun hb hp => inv.buf_one hb (fun hp' => hp (h.mp hp'))
    buf_zero := fun hn => inv.buf_zero (fun ⟨hb, hp⟩ => hn ⟨hb, fun hp' => hp (h.mpr hp')⟩)
    past_begun := fun hp => inv.past_begun (h.mpr hp) }

/-- A consumer step never clears `initialized`. -/
theorem Feed.step_initialized {f f' : Feed} {st : ConsumerStep} (h : f.step st = some f')
    (hinit : f.view.initialized = true) : f'.view.initialized = true := by
  cases st <;> simp only [Feed.step] at h
  · split at h
    · rw [← Option.some.inj h]; exact hinit
    · exact absurd h (by simp)
  · split at h
    · rw [hinit] at h
      simp only [Bool.not_true, Bool.false_eq_true, ↓reduceIte] at h
      rw [← Option.some.inj h]; exact hinit
    · exact absurd h (by simp)
  · split at h
    · rw [← Option.some.inj h]
    · exact absurd h (by simp)
  · split at h
    · rw [← Option.some.inj h]; exact hinit
    · exact absurd h (by simp)

/-- Every consumer step preserves the feed invariant. -/
theorem Feed.step_inv {delivered : List Price} {past : Prop} {f f' : Feed}
    {st : ConsumerStep} (inv : FeedInv delivered past f) (h : f.step st = some f') :
    FeedInv delivered past f' := by
  obtain ⟨view, stream, pc⟩ := f
  cases st <;> simp only [Feed.step] at h
  · -- take
    split at h
    · rename_i _ _ price rest
      rw [← Option.some.inj h]
      refine ⟨inv.cap_one, fun p hp => inv.stream_sub p (List.mem_cons_of_mem _ hp), ?_, ?_, ?_,
        ?_, ?_, ?_⟩
      · intro p hp
        simp only [ConsumerPc.held, Option.some.injEq] at hp
        exact inv.stream_sub p (hp ▸ List.mem_cons_self _ _)
      · intro hi
        rcases inv.price_mem hi with ⟨p, hp⟩ | hmem
        · simp at hp
        · exact Or.inr hmem
      · intro p hp; simp at hp
      · intro hb hp
        apply inv.buf_one _ hp
        rcases hb with hi | ⟨p, hp'⟩
        · exact Or.inl hi
        · simp at hp'
      · intro hn
        apply inv.buf_zero
        rintro ⟨hb, hp⟩
        apply hn
        refine ⟨?_, hp⟩
        rcases hb with hi | ⟨p, hp'⟩
        · exact Or.inl hi
        · simp at hp'
      · intro hp
        rcases inv.past_begun hp with hi | ⟨p, hp'⟩
        · exact Or.inl hi
        · simp at hp'
    · exact absurd h (by simp)
  · -- signal
    split at h
    · rename_i _ price
      by_cases hi : view.initialized = true
      · simp only [hi, Bool.not_true, Bool.false_eq_true, ↓reduceIte] at h
        rw [← Option.some.inj h]
        refine ⟨inv.cap_one, inv.stream_sub, ?_, fun _ => Or.inl ⟨price, rfl⟩, ?_, ?_, ?_, ?_⟩
        · intro p hp
          exact inv.held_mem p (by simpa [ConsumerPc.held] using hp)
        · intro p hp; simp at hp
        · intro _ hp
          exact inv.buf_one (Or.inl hi) hp
        · intro hn
          apply inv.buf_zero
          rintro ⟨_, hp⟩
          exact hn ⟨Or.inl hi, hp⟩
        · intro _
          exact Or.inl hi
      · have hfalse : view.initialized = false := by simpa using hi
        have hnb : ¬ Feed.begun { view := view, stream := stream, pc := .atCheck price } := by
          rintro (h' | ⟨p, hp⟩)
          · exact hi h'
          · simp at hp
        have hbuf : view.signalReady.buf = 0 := inv.buf_zero (fun hx => hnb hx.1)
        have hcap : view.signalReady.cap = 1 := inv.cap_one
        have hnp : ¬past := fun hp => hnb (inv.past_begun hp)
        simp only [hfalse, Bool.not_false, ↓reduceIte, Chan.send, hbuf, hcap, Nat.lt_one_iff,
          zero_add] at h
        rw [← Option.some.inj h]
        refine ⟨rfl, inv.stream_sub, ?_, ?_, ?_, ?_, ?_, ?_⟩
        · intro p hp
          exact inv.held_mem p (by simpa [ConsumerPc.held] using hp)
        · intro h'
          exact absurd h' (by simp)
        · intro p _
          rfl
        · intro _ _
          rfl
        · intro hn
          exact absurd ⟨Or.inr ⟨price, rfl⟩, hnp⟩ hn
        · intro _
          exact Or.inr ⟨price, rfl⟩
    · exact absurd h (by simp)
  · -- mark
    split at h
    · rename_i _ price
      rw [← Option.some.inj h]
      have hb : Feed.begun { view := view, stream := stream, pc := .atMark price } :=
        Or.inr ⟨price, rfl⟩
      refine ⟨inv.cap_one, inv.stream_sub, ?_, fun _ => Or.inl ⟨price, rfl⟩, ?_, ?_, ?_, ?_⟩
      · intro p hp
        exact inv.held_mem p (by simpa [ConsumerPc.held] using hp)
      · intro p hp; simp at hp
      · intro _ hp
        exact inv.buf_one hb hp
      · intro hn
        apply inv.buf_zero
        rintro ⟨_, hp⟩
        exact hn ⟨Or.inl rfl, hp⟩
      · intro _
        exact Or.inl rfl
    · exact absurd h (by simp)
  · -- store
    split at h
    · rename_i _ price
      rw [← Option.some.inj h]
      have hmem : price ∈ delivered := inv.held_mem price rfl
      refine ⟨inv.cap_one, inv.stream_sub, ?_, fun _ => Or.inr hmem, ?_, ?_, ?_, ?_⟩
      · intro p hp; simp [ConsumerPc.held] at hp
      · intro p hp; simp at hp
      · intro hb hp
        apply inv.buf_one _ hp
        rcases hb with hi | ⟨p, hp'⟩
        · exact Or.inl hi
        · simp at hp'
      · intro hn
        apply inv.buf_zero
        rintro ⟨hb, hp⟩
        apply hn
        refine ⟨?_, hp⟩
        rcases hb with hi | ⟨p, hp'⟩
        · exact Or.inl hi
        · simp at hp'
      · intro hp
        rcases inv.past_begun hp with hi | ⟨p, hp'⟩
        · exact Or.inl hi
        · simp at hp'
    · exact absurd h (by simp)

/-- The receive of the main goroutine on `signalReady` takes the one signal of a feed
whose first `Update` has sent, and leaves everything else of the feed alone. -/
theorem Feed.recvReady_inv {delivered : List Price} {past : Prop} (past' : Prop) {f f' : Feed}
    (inv : FeedInv delivered past f) (hpast : ¬past) (hpast' : past')
    (h : f.recvReady = some f') :
    FeedInv delivered past' f' ∧ f'.view.initialized = f.view.initialized ∧ f'.pc = f.pc := by
  obtain ⟨view, stream, pc⟩ := f
  have hb : Feed.begun { view := view, stream := stream, pc := pc } := by
    by_contra hn
    have h0 : view.signalReady.buf = 0 := inv.buf_zero (fun hx => hn hx.1)
    simp [Feed.recvReady, Chan.recv, h0] at h
  have h1 : view.signalReady.buf = 1 := inv.buf_one hb hpast
  simp only [Feed.recvReady, Chan.recv, h1, Nat.lt_one_iff, zero_lt_one, ↓reduceIte,
    Nat.sub_self] at h
  rw [← Option.some.inj h]
  refine ⟨⟨inv.cap_one, inv.stream_sub, inv.held_mem, inv.price_mem, inv.mark_uninit, ?_, ?_, ?_⟩,
    rfl, rfl⟩
  · intro _ hp
    exact absurd hpast' hp
  · intro _
    rfl
  · intro _
    exact hb

/-- When the main goroutine is past the receive, a feed whose consumer is outside
`Update` is initialized and holds a delivered price. -/
theorem FeedInv.idle_ready {delivered : List Price} {past : Prop} {f : Feed}
    (inv : FeedInv delivered past f) (hpast : past) {price : Price}
    (h : f.readPrice = some price) :
    f.view.initialized = true ∧ price ∈ delivered := by
  obtain ⟨view, stream, pc⟩ := f
  cases pc <;> simp only [Feed.readPrice, priceView.Price, Option.some.injEq] at h
  · subst h
    have hi : view.initialized = true := by
      rcases inv.past_begun hpast with hi | ⟨p, hp⟩
      · exact hi
      · simp at hp
    refine ⟨hi, ?_⟩
    rcases inv.price_mem hi with ⟨p, hp⟩ | hmem
    · simp at hp
    · exact hmem
  all_goals exact absurd h (by simp)

/-- The state right after the two `go` statements satisfies the invariant. -/
theorem RunInv.start (exchangeA exchangeB : String) (streamA streamB : List Price) :
    RunInv streamA streamB
      (RunState.start (newPriceView exchangeA) (newPriceView exchangeB) streamA streamB) := by
  have hfeed : ∀ (name : String) (stream : List Price) (past : Prop), ¬past →
      FeedInv stream past { view := newPriceView name, stream := stream, pc := .idle } := by
    intro name stream past hp
    refine ⟨rfl, fun _ h => h, ?_, ?_, ?_, ?_, ?_, ?_⟩
    · intro p h; simp [ConsumerPc.held] at h
    · intro h; simp [newPriceView] at h
    · intro p h; simp at h
    · rintro (h | ⟨p, h⟩) _
      · simp [newPriceView] at h
      · simp at h
    · intro _; rfl
    · intro h; exact absurd h hp
  refine ⟨hfeed _ _ _ (by simp [MainPc.pastA, RunState.start]),
    hfeed _ _ _ (by simp [MainPc.pastB, RunState.start]), ?_, ?_⟩
  · intro p h; simp [RunState.start] at h
  · intro h; simp [RunState.start] at h

/-- Every scheduler step preserves the invariant. -/
theorem RunInv.step {strat : Strategy} {streamA streamB : List Price} {s s' : RunState}
    {a : Action} (inv : RunInv streamA streamB s) (h : s.step strat a = some s') :
    RunInv streamA streamB s' := by
  obtain ⟨feedA, feedB, main, emitted⟩ := s
  cases a with
  | consumer side st =>
    cases side <;> simp only [RunState.step] at h
    · split at h
      · rename_i f hf
        rw [← Option.some.inj h]
        refine ⟨Feed.step_inv inv.feedA hf, inv.feedB, ?_, ?_⟩
        · intro p hp
          exact ⟨(inv.readB_mem p hp).1, Feed.step_initialized hf (inv.readB_mem p hp).2⟩
        · intro he
          exact ⟨Feed.step_initialized hf (inv.emitted_init he).1, (inv.emitted_init he).2⟩
      · exact absurd h (by simp)
    · split at h
      · rename_i f hf
        rw [← Option.some.inj h]
        refine ⟨inv.feedA, Feed.step_inv inv.feedB hf, inv.readB_mem, ?_⟩
        intro he
        exact ⟨(inv.emitted_init he).1, Feed.step_initialized hf (inv.emitted_init he).2⟩
      · exact absurd h (by simp)
  | recvReady =>
    simp only [RunState.step] at h
    cases main with
    | waitA =>
      simp only at h
      split at h
      · rename_i f hf
        rw [← Option.some.inj h]
        obtain ⟨hinv, hinit, _⟩ := Feed.recvReady_inv (MainPc.pastA .waitB) inv.feedA
          (by simp [MainPc.pastA]) (by simp [MainPc.pastA]) hf
        refine ⟨hinv, inv.feedB.of_iff (by simp [MainPc.pastB]), ?_, ?_⟩
        · intro p hp; simp at hp
        · intro he
          exact ⟨hinit ▸ (inv.emitted_init he).1, (inv.emitted_init he).2⟩
      · exact absurd h (by simp)
    | waitB =>
      simp only at h
      split at h
      · rename_i f hf
        rw [← Option.some.inj h]
        obtain ⟨hinv, hinit, _⟩ := Feed.recvReady_inv
          (MainPc.pastB (if 0 < strat.Interval then .select
            else .panicked "non-positive interval for NewTicker")) inv.feedB
          (by simp [MainPc.pastB]) (by split_ifs <;> simp [MainPc.pastB]) hf
        refine ⟨inv.feedA.of_iff (by split_ifs <;> simp [MainPc.pastA]), hinv, ?_, ?_⟩
        · intro p hp
          split_ifs at hp
        · intro he
          exact ⟨(inv.emitted_init he).1, hinit ▸ (inv.emitted_init he).2⟩
      · exact absurd h (by simp)
    | select => simp at h
    | readB p => simp at h
    | returned e => simp at h
    | panicked msg => simp at h
  | tickReadA =>
    simp only [RunState.step] at h
    cases main with
    | select =>
      simp only at h
      split at h
      · rename_i priceA hread
        rw [← Option.some.inj h]
        have hready := inv.feedA.idle_ready (by simp [MainPc.pastA]) hread
        refine ⟨inv.feedA.of_iff (by simp [MainPc.pastA]),
          inv.feedB.of_iff (by simp [MainPc.pastB]), ?_, inv.emitted_init⟩
        intro p hp
        simp only [MainPc.readB.injEq] at hp
        subst hp
        exact ⟨hready.2, hready.1⟩
      · exact absurd h (by simp)
    | waitA => simp at h
    | waitB => simp at h
    | readB p => simp at h
    | returned e => simp at h
    | panicked msg => simp at h
  | tickReadB now₁ now₂ =>
    simp only [RunState.step] at h
    cases main with
    | readB priceA =>
      simp only at h
      split at h
      · rename_i priceB hread
        rw [← Option.some.inj h]
        have hreadyB := inv.feedB.idle_ready (by simp [MainPc.pastB]) hread
        have hreadyA := inv.readB_mem priceA rfl
        refine ⟨inv.feedA.of_iff (by simp [MainPc.pastA]),
          inv.feedB.of_iff (by simp [MainPc.pastB]), ?_, fun _ => ⟨hreadyA.2, hreadyB.1⟩⟩
        intro p hp; simp at hp
      · exact absurd h (by simp)
    | waitA => simp at h
    | waitB => simp at h
    | select => simp at h
    | returned e => simp at h
    | panicked msg => simp at h
  | cancel =>
    simp only [RunState.step] at h
    cases main with
    | select =>
      simp only [Option.some.injEq] at h
      rw [← h]
      refine ⟨inv.feedA.of_iff (by simp [MainPc.pastA]),
        inv.feedB.of_iff (by simp [MainPc.pastB]), ?_, inv.emitted_init⟩
      intro p hp; simp at hp
    | waitA => simp at h
    | waitB => simp at h
    | readB p => simp at h
    | returned e => simp at h
    | panicked msg => simp at h

/-- Every executable schedule preserves the invariant. -/
theorem RunInv.exec {strat : Strategy} {streamA streamB : List Price} :
    ∀ (sched : List Action) {s s' : RunState}, RunInv streamA streamB s →
      RunState.exec strat s sched = some s' → RunInv streamA streamB s' := by
  intro sched
  induction sched with
  | nil =>
    intro s s' inv h
    simp only [RunState.exec, Option.some.injEq] at h
    exact h ▸ inv
  | cons a rest ih =>
    intro s s' inv h
    simp only [RunState.exec] at h
    split at h
    · rename_i s₁ hs₁
      exact ih (inv.step hs₁) h
    · exact absurd h (by simp)

/-- The send of a first `Update` never blocks in a running `Run`: whenever a consumer
stands at the test `!mv.initialized`, its `signal` step is enabled. -/
theorem FeedInv.signal_enabled {delivered : List Price} {past : Prop} {f : Feed}
    (inv : FeedInv delivered past f) {price : Price} (hpc : f.pc = .atCheck price) :
    (f.step .signal).isSome = true := by
  obtain ⟨view, stream, pc⟩ := f
  simp only at hpc
  subst hpc
  by_cases hi : view.initialized = true
  · simp [Feed.step, hi]
  · have hfalse : view.initialized = false := by simpa using hi
    have hnb : ¬ Feed.begun { view := view, stream := stream, pc := .atCheck price } := by
      rintro (h' | ⟨p, hp⟩)
      · exact hi h'
      · simp at hp
    have hbuf : view.signalReady.buf = 0 := inv.buf_zero (fun hx => hnb hx.1)
    have hcap : view.signalReady.cap = 1 := inv.cap_one
    simp [Feed.step, hfalse, Chan.send, hbuf, hcap]

/-- The consumer steps `take`, `signal`, `mark` (on a first call) and `store`, run one
after the other, have the effect of one `Update` call on the next price of the stream. -/
theorem Feed.steps_eq_Update (view : priceView) (price : Price) (rest : List Price) :
    (((Feed.step { view := view, stream := price :: rest, pc := .idle } .take).bind
        (fun f => f.step .signal)).bind
        (fun f => if view.initialized then f.step .store
          else (f.step .mark).bind (fun f => f.step .store)))
      = (view.Update price).map (fun v => { view := v, stream := rest, pc := .idle }) := by
  cases hi : view.initialized
  · cases hs : view.signalReady.send with
    | none => simp [Feed.step, priceView.Update, hi, hs]
    | some ch => simp [Feed.step, priceView.Update, hi, hs]
  · simp [Feed.step, priceView.Update, hi]

/-- C9, counterexample: in the worked case, after each consumer has taken its first
price and sent on `signalReady` and before either has executed `mv.initialized = true`,
the main goroutine receives both signals and stands at the `select` of the evaluation
loop while `viewA.initialized` and `viewB.initialized` are both false. -/
theorem loop_entered_before_initialized :
    ∃ s : RunState,
      caseStrategy.Run earlySchedule = .ok (some s) ∧
      s.main = .select ∧ s.feedA.view.initialized = false ∧
      s.feedB.view.initialized = false ∧
      s.feedA.pc = .atMark casePriceA ∧ s.feedB.pc = .atMark casePriceB ∧ s.emitted = [] :=
  ⟨_, rfl, rfl, rfl, rfl, rfl, rfl, rfl⟩

/-- C9, amended: in every execution of `Run` with both streams opened, the evaluation loop
is entered only after the first `Update` of each view has sent its readiness signal
(the view is initialized or that `Update` stands just before `mv.initialized = true`).
Every `viewA.Price()` and `viewB.Price()` of a tick is granted the lock only when the view
is initialized and holds a price its stream delivered, and no plan is logged before both
views are initialized. -/
theorem tick_reads_initialized_views (strat : Strategy) (streamA streamB : List Price)
    (sched : List Action) (s : RunState)
    (hA : strat.exchangeA.PriceStream strat.TradingPair strat.Interval = .ok streamA)
    (hB : strat.exchangeB.PriceStream strat.TradingPair strat.Interval = .ok streamB)
    (hrun : strat.Run sched = .ok (some s)) :
    ((s.main = .select ∨ ∃ priceA, s.main = .readB priceA) → s.feedA.begun ∧ s.feedB.begun) ∧
    (∀ priceA, s.main = .select → s.feedA.readPrice = some priceA →
      s.feedA.view.initialized = true ∧ priceA ∈ streamA) ∧
    (∀ priceA priceB, s.main = .readB priceA → s.feedB.readPrice = some priceB →
      s.feedA.view.initialized = true ∧ priceA ∈ streamA ∧
      s.feedB.view.initialized = true ∧ priceB ∈ streamB) ∧
    (s.emitted ≠ [] → s.feedA.view.initialized = true ∧ s.feedB.view.initialized = true) := by
  rw [Strategy.Run_of_opened strat streamA streamB hA hB sched] at hrun
  have hexec : RunState.exec strat
      (RunState.start (newPriceView strat.exchangeA.Name) (newPriceView strat.exchangeB.Name)
        streamA streamB) sched = some s := by
    simpa using hrun
  have inv : RunInv streamA streamB s := RunInv.exec sched (RunInv.start _ _ _ _) hexec
  refine ⟨?_, ?_, ?_, inv.emitted_init⟩
  · intro hm
    constructor
    · apply inv.feedA.past_begun
      rcases hm with hm | ⟨p, hm⟩ <;> simp [MainPc.pastA, hm]
    · apply inv.feedB.past_begun
      rcases hm with hm | ⟨p, hm⟩ <;> simp [MainPc.pastB, hm]
  · intro priceA hm hread
    exact inv.feedA.idle_ready (by simp [MainPc.pastA, hm]) hread
  · intro priceA priceB hm hread
    have hAr := inv.readB_mem priceA hm
    have hBr := inv.feedB.idle_ready (by simp [MainPc.pastB, hm]) hread
    exact ⟨hAr.2, hAr.1, hBr.1, hBr.2⟩

/-- C9 at the worked case: under `caseSchedule` both first `Update` calls complete, the
main goroutine receives both signals, and the tick reads (110, 100) and (105, 95) from
initialized views and logs the two plans. -/
theorem tick_reads_initialized_views_witness :
    caseStrategy.Run caseSchedule = .ok (some caseFinal) ∧
    caseFinal.emitted = caseStrategy.tick casePriceA casePriceB 1 2 ∧
    caseFinal.feedA.view.initialized = true ∧ caseFinal.feedB.view.initialized = true :=
  ⟨rfl, rfl,
    (tick_reads_initialized_views caseStrategy [casePriceA] [casePriceB] caseSchedule caseFinal
      rfl rfl rfl).2.2.2 (by simp [caseFinal, Strategy.tick])⟩

end strategy

end arbot
